import Mathlib

/-!
# Exact-number parsing, arrangement queries and constrained triangulation

A shallow embedding of `src/cgshop2025_pyutils/geometry/_bindings.cpp`.

* A `std::string` is a `List Char`.  Every character the parser can let through is
  ASCII; a `Char` whose code is 128 or more stands for a byte with the high bit set
  (a negative `char`).
* `Kernel::FT` is an exact rational, `Rat`.
* `std::int64_t` is an `Int` kept inside the signed 64-bit range by the functions
  that produce it.
* A C++ exception is the `error` branch of `Except`.
-/

namespace Bindings

/-! ## Errors -/

/-- The failures of `str_to_exact`.  The first three are the `std::runtime_error`s
thrown by the parser itself (told apart by their message); the last three come out of
the library calls the parser makes. -/
inductive ParseError
  /-- The messages "Invalid character in number string" and "More than one / in number
  string!". -/
  | InvalidNumberLiteral
  /-- The message "Negative sign character '-' in invalid position in number string." -/
  | InvalidNumberSign
  /-- The message "Divide by 0 in number string!" -/
  | DivisionByZero
  /-- The exception `std::invalid_argument` of `std::stoll`: no conversion possible. -/
  | StollInvalidArgument
  /-- The exception `std::out_of_range` of `std::stoll`. -/
  | StollOutOfRange
  /-- The arbitrary-precision constructor was handed a string that is not an
  optionally signed run of decimal digits; the library leaves the value unspecified. -/
  | MalformedBigInteger
  deriving DecidableEq, Repr

deriving instance DecidableEq for Except

/-! ## Characters -/

/-- The function `std::isdigit` in the "C" locale. -/
def isdigit (c : Char) : Bool := decide (48 ≤ c.toNat ∧ c.toNat ≤ 57)

/-- The function `std::isspace` in the "C" locale (used by `std::stoll`). -/
def isspace (c : Char) : Bool :=
  c == ' ' || c == '\t' || c == '\n' || c == '\x0b' || c == '\x0c' || c == '\r'

/-- The value of a decimal digit character, `c - '0'`. -/
def digitVal (c : Char) : Nat := c.toNat - 48

/-! ## `std::string` primitives used by the parser -/

/-- The result of `s.find_first_not_of(ch)`; `none` is `std::string::npos`. -/
def find_first_not_of : List Char → Char → Option Nat
  | [], _ => none
  | c :: cs, ch =>
    if c != ch then some 0
    else match find_first_not_of cs ch with
      | none => none
      | some k => some (k + 1)

/-- The effect of `s.erase(0, n)`; with `n = npos` the whole string goes. -/
def erase_front (s : List Char) : Option Nat → List Char
  | none => []
  | some n => s.drop n

/-- Index of the first `ch` in a string, if there is one. -/
def find_first_eq : List Char → Char → Option Nat
  | [], _ => none
  | c :: cs, ch =>
    if c == ch then some 0
    else match find_first_eq cs ch with
      | none => none
      | some k => some (k + 1)

/-- The result of `s.find(ch, pos)`; `none` is `std::string::npos`. -/
def find (s : List Char) (ch : Char) (pos : Nat) : Option Nat :=
  match find_first_eq (s.drop pos) ch with
  | none => none
  | some k => some (pos + k)

/-- The result of `s.substr(pos, len)`. -/
def substr (s : List Char) (pos len : Nat) : List Char := (s.drop pos).take len

/-- The result of `s.substr(pos)`. -/
def substr_from (s : List Char) (pos : Nat) : List Char := s.drop pos

/-! ## The parser -/

/-- The lambda `is_ws` of `remove_whitespace`. -/
def is_ws (c : Char) : Bool := c == ' ' || c == '\t' || c == '\n'

/-- The function `remove_whitespace`: the erase-remove idiom drops every `is_ws` character. -/
def remove_whitespace (number : List Char) : List Char :=
  number.filter (fun c => !is_ws c)

/-- The lambda `is_allowed` of `check_allowed`. -/
def is_allowed (c : Char) : Bool :=
  if 128 ≤ c.toNat then false
  else isdigit c || c == '/' || c == '-'

/-- The function `check_allowed`. -/
def check_allowed (number : List Char) : Except ParseError Unit :=
  if number.all is_allowed then .ok () else .error .InvalidNumberLiteral

/-- The function `check_sign`: every character after the first must be a digit. -/
def check_sign (number : List Char) : Except ParseError Unit :=
  if number.isEmpty then .ok ()
  else if (number.drop 1).all isdigit then .ok ()
  else .error .InvalidNumberSign

/-- The bounds of `long long`. -/
def INT64_MIN : Int := -(2 ^ 63)

/-- The upper bound of `long long`. -/
def INT64_MAX : Int := 2 ^ 63 - 1

/-- The library function `std::stoll(str)` in base 10: skip leading white space, read
an optional sign, then the longest run of digits; `std::invalid_argument` when the run
is empty and `std::out_of_range` when the value leaves the signed 64-bit range. -/
def stoll (str : List Char) : Except ParseError Int :=
  let s1 := str.dropWhile isspace
  let signed : Bool × List Char :=
    match s1 with
    | '-' :: r => (true, r)
    | '+' :: r => (false, r)
    | r => (false, r)
  let ds := signed.2.takeWhile isdigit
  if ds.isEmpty then .error .StollInvalidArgument
  else
    let mag : Nat := ds.foldl (fun acc c => acc * 10 + digitVal c) 0
    let v : Int := if signed.1 then -(mag : Int) else (mag : Int)
    if INT64_MIN ≤ v ∧ v ≤ INT64_MAX then .ok v else .error .StollOutOfRange

/-- The number of low bits an integer of magnitude `a` loses when it is stored in the
53-bit significand of a `double`: halve until the magnitude is below `2 ^ 53`.  The
fuel is the exponent range of a `double`. -/
def excess_bits : Nat → Nat → Nat
  | 0, _ => 0
  | fuel + 1, a => if a < 2 ^ 53 then 0 else excess_bits fuel (a / 2) + 1

/-- Conversion of an integer to `double`: round to nearest, ties to even, on a 53-bit
significand (no integer met here is large enough to overflow the exponent). -/
def to_double (n : Int) : Int :=
  let a := n.natAbs
  let e := excess_bits 1024 a
  let q := a / 2 ^ e
  let r := a % 2 ^ e
  let q1 := if 2 * r < 2 ^ e then q
            else if 2 ^ e < 2 * r then q + 1
            else if q % 2 = 0 then q else q + 1
  n.sign * ((q1 * 2 ^ e : Nat) : Int)

/-- The function `to_exact`: the low 32 bits `x & 0xffffffff` and the high part
`x >> 32` (an arithmetic shift) each go through a `double`, the high one is scaled by
`4294967296.0` in `double` arithmetic, and the two are added as exact numbers. -/
def to_exact (x : Int) : Rat :=
  let lo32 : Int := to_double (x % 2 ^ 32)
  let hi32 : Int := to_double (to_double (x / 2 ^ 32) * 4294967296)
  (hi32 : Rat) + (lo32 : Rat)

/-- The function `integer_str_to_exact`: the arbitrary-precision constructor of the
exact rational type from a string, which reads an optional `-` followed by decimal
digits in base 10 (the GMP-backed type; leading zeros do not change the base). -/
def integer_str_to_exact (str : List Char) : Except ParseError Rat :=
  let signed : Bool × List Char :=
    match str with
    | '-' :: r => (true, r)
    | r => (false, r)
  if signed.2.isEmpty || !signed.2.all isdigit then .error .MalformedBigInteger
  else
    let mag : Nat := signed.2.foldl (fun acc c => acc * 10 + digitVal c) 0
    .ok (if signed.1 then -(mag : Rat) else (mag : Rat))

/-- The function `checked_int_str_to_exact`. -/
def checked_int_str_to_exact (number : List Char) : Except ParseError Rat :=
  match check_sign number with
  | .error e => .error e
  | .ok () =>
    if number.length ≤ 16 then
      if number.isEmpty then .ok 0
      else
        match stoll number with
        | .error e => .error e
        | .ok x => .ok (to_exact x)
    else integer_str_to_exact number

/-- The function `str_to_exact`. -/
def str_to_exact (number : List Char) : Except ParseError Rat :=
  let number := remove_whitespace number
  let number := erase_front number (find_first_not_of number '+')
  let number := erase_front number (find_first_not_of number '0')
  if number.isEmpty then .ok 0
  else
    match check_allowed number with
    | .error e => .error e
    | .ok () =>
      match find number '/' 0 with
      | some slash_pos =>
        if (find number '/' (slash_pos + 1)).isSome then .error .InvalidNumberLiteral
        else
          match checked_int_str_to_exact (substr number 0 slash_pos) with
          | .error e => .error e
          | .ok numerator =>
            match checked_int_str_to_exact (substr_from number (slash_pos + 1)) with
            | .error e => .error e
            | .ok denominator =>
              if denominator = 0 then .error .DivisionByZero
              else .ok (numerator / denominator)
      | none => checked_int_str_to_exact number

/-! ## Reference semantics of literals (from the specification) -/

/-- The natural number a run of decimal digits denotes, by positional notation. -/
def decimal_value : List Char → Nat
  | [] => 0
  | c :: cs => digitVal c * 10 ^ cs.length + decimal_value cs

/-- The integer an integer component denotes: an optional leading `-` and a run of
digits; the empty run is zero. -/
def component_value : List Char → Int
  | '-' :: ds => -(decimal_value ds : Int)
  | ds => (decimal_value ds : Int)

/-- The string left after removing white space, then leading `+`, then leading `0`. -/
def stripped (s : List Char) : List Char :=
  ((s.filter (fun c => !(c == ' ' || c == '\t' || c == '\n'))).dropWhile
    (fun c => c == '+')).dropWhile (fun c => c == '0')

/-! ## Serialisation -/

/-- The character of a decimal digit, `'0' + d`. -/
def digit_char (d : Nat) : Char := Char.ofNat (48 + d)

/-- The decimal digits of a natural number, most significant first, as the base-10
string conversion of the arbitrary-precision integer type writes them.  The fuel
bounds the number of digits. -/
def nat_digits : Nat → Nat → List Char
  | 0, _ => []
  | fuel + 1, n =>
    if n < 10 then [digit_char n]
    else nat_digits fuel (n / 10) ++ [digit_char (n % 10)]

/-- The base-10 string of a natural number. -/
def nat_to_string (n : Nat) : List Char := nat_digits (n + 1) n

/-- The function `to_rational_string`: the `str()` of the exact value, which is kept in
lowest terms with a positive denominator: the numerator, with a leading `-` when
negative, and, unless the denominator is 1, a `/` and the denominator. -/
def to_rational_string (x : Rat) : List Char :=
  (if x.num < 0 then ['-'] else []) ++ nat_to_string x.num.natAbs
    ++ (if x.den = 1 then [] else '/' :: nat_to_string x.den)

/-! ## Points -/

/-- A `Point` (and, for differences of points, a vector) of the exact kernel. -/
structure Point where
  /-- The first coordinate. -/
  x : Rat
  /-- The second coordinate. -/
  y : Rat
  deriving DecidableEq

instance : Inhabited Point := ⟨⟨0, 0⟩⟩

/-- The difference `p - q` of two points, a vector. -/
def Point.sub (p q : Point) : Point := ⟨p.x - q.x, p.y - q.y⟩

instance : Sub Point := ⟨Point.sub⟩

/-- The kernel function `CGAL::scalar_product`. -/
def scalar_product (v w : Point) : Rat := v.x * w.x + v.y * w.y

/-! ## The arrangement as the verifier sees it -/

/-- A face handle: whether the face is unbounded, and the halfedge `outer_ccb()` that
starts the walk around its outer boundary. -/
structure Face where
  /-- The result of `is_unbounded()`. -/
  is_unbounded : Bool
  /-- The result of `outer_ccb()`, a halfedge handle. -/
  outer_ccb : Nat
  deriving DecidableEq

/-- The part of `Arrangement_2` that the queries read: the faces in iteration order
(`faces_begin()` to `faces_end()`) and, for a halfedge handle, `next()` and the points
of `source()` and `target()`. -/
structure Arrangement where
  /-- The faces, in iteration order. -/
  faces : List Face
  /-- The halfedge `e->next()`. -/
  next : Nat → Nat
  /-- The point `e->source()->point()`. -/
  source : Nat → Point
  /-- The point `e->target()->point()`. -/
  target : Nat → Point

/-- The `do { num_edges++; e = e->next(); } while (e != it->outer_ccb());` loop of
`search_for_non_triangular_faces`, entered with halfedge `e` and counter `num_edges`;
the result is the counter and the halfedge at exit, `none` when the fuel runs out before
the walk is back at `start`. -/
def ccb_loop (arr : Arrangement) (start : Nat) : Nat → Nat → Nat → Option (Nat × Nat)
  | 0, _, _ => none
  | fuel + 1, e, num_edges =>
    let num_edges := num_edges + 1
    let e := arr.next e
    if e != start then ccb_loop arr start fuel e num_edges
    else some (num_edges, e)

/-- The loop over the faces in `search_for_non_triangular_faces`. -/
def search_faces (arr : Arrangement) (fuel : Nat) : List Face → Option (Option Point)
  | [] => some none
  | it :: rest =>
    if it.is_unbounded then search_faces arr fuel rest
    else
      match ccb_loop arr it.outer_ccb fuel it.outer_ccb 0 with
      | none => none
      | some (num_edges, e) =>
        if num_edges != 3 then some (some (arr.source e))
        else search_faces arr fuel rest

/-- The member `search_for_non_triangular_faces`.  The outer `Option` is `none` only
when a boundary walk exhausts the fuel; the inner one is the `std::optional<Point>`. -/
def search_for_non_triangular_faces (arr : Arrangement) (fuel : Nat) :
    Option (Option Point) :=
  search_faces arr fuel arr.faces

/-- The `for (int i = 0; i < 3; i++)` loop of `count_obtuse_triangles`, entered at index
`i` with `n` iterations left: the count after the loop. -/
def angle_loop (points : List Point) (count : Nat) : Nat → Nat → Nat
  | _, 0 => count
  | i, n + 1 =>
    let v1 := points.getD ((i + 1) % 3) default - points.getD i default
    let v2 := points.getD ((i + 2) % 3) default - points.getD i default
    if scalar_product v1 v2 < 0 then count + 1
    else angle_loop points count (i + 1) n

/-- The loop over the faces in `count_obtuse_triangles`. -/
def count_faces (arr : Arrangement) : List Face → Nat → Nat
  | [], count => count
  | it :: rest, count =>
    if it.is_unbounded then count_faces arr rest count
    else
      let e := it.outer_ccb
      let p1 := arr.source e
      let p2 := arr.target e
      let e := arr.next e
      let p3 := arr.target e
      count_faces arr rest (angle_loop [p1, p2, p3] count 0 3)

/-- The member `count_obtuse_triangles`. -/
def count_obtuse_triangles (arr : Arrangement) : Nat :=
  count_faces arr arr.faces 0

/-! ## Reference notions for faces (from the specification) -/

/-- The outer boundary cycle that starts at halfedge `start` has exactly `k` edges: the
walk along `next` is back at `start` after `k` steps and not before. -/
def IsCcbLength (arr : Arrangement) (start k : Nat) : Prop :=
  0 < k ∧ arr.next^[k] start = start ∧ ∀ j < k, 0 < j → arr.next^[j] start ≠ start

instance (arr : Arrangement) (start k : Nat) : Decidable (IsCcbLength arr start k) := by
  unfold IsCcbLength; infer_instance

/-- The angle at apex `a` of the triangle `a`, `b`, `c` is obtuse. -/
def obtuse_at (a b c : Point) : Prop := scalar_product (b - a) (c - a) < 0

instance (a b c : Point) : Decidable (obtuse_at a b c) := by
  unfold obtuse_at; infer_instance

/-- The triangle `a`, `b`, `c` has an obtuse angle. -/
def has_obtuse_angle (a b c : Point) : Prop :=
  obtuse_at a b c ∨ obtuse_at b c a ∨ obtuse_at c a b

instance (a b c : Point) : Decidable (has_obtuse_angle a b c) := by
  unfold has_obtuse_angle; infer_instance

/-- The face is a bounded triangle with an obtuse angle, its three vertices being the
sources of the three halfedges of its outer boundary. -/
def is_obtuse_triangle_face (arr : Arrangement) (f : Face) : Prop :=
  f.is_unbounded = false ∧ IsCcbLength arr f.outer_ccb 3 ∧
    has_obtuse_angle (arr.source f.outer_ccb) (arr.source (arr.next f.outer_ccb))
      (arr.source (arr.next (arr.next f.outer_ccb)))

instance (arr : Arrangement) (f : Face) : Decidable (is_obtuse_triangle_face arr f) := by
  unfold is_obtuse_triangle_face; infer_instance

/-- The number of bounded triangular faces that have an obtuse angle. -/
def obtuse_triangle_count (arr : Arrangement) : Nat :=
  (arr.faces.filter (fun f => decide (is_obtuse_triangle_face arr f))).length

/-! ## Example arrangements -/

/-- The successor in a cycle of `n` halfedges numbered from `base`; other handles are
left alone. -/
def cycle_next (base n e : Nat) : Nat :=
  if base ≤ e ∧ e < base + n then base + (e - base + 1) % n else e

/-- The arrangement of a polygon given by its corners in counter-clockwise order:
halfedges `0 .. n-1` run counter-clockwise around the bounded face, their twins
`n .. 2n-1` run clockwise around the hole of the unbounded face, which comes first in
the iteration and has no outer boundary. -/
def polygon_arrangement (corners : List Point) : Arrangement :=
  let n := corners.length
  { faces := [⟨true, n⟩, ⟨false, 0⟩]
    next := fun e => if e < n then cycle_next 0 n e else cycle_next n n e
    source := fun e =>
      if e < n then corners.getD e default else corners.getD ((2 * n - e) % n) default
    target := fun e =>
      if e < n then corners.getD ((e + 1) % n) default
      else corners.getD (2 * n - 1 - e) default }

/-- The square `(0,0)`, `(4,0)`, `(4,4)`, `(0,4)` with its four boundary edges. -/
def square_arrangement : Arrangement :=
  polygon_arrangement [⟨0, 0⟩, ⟨4, 0⟩, ⟨4, 4⟩, ⟨0, 4⟩]

/-- The right triangle `(0,0)`, `(4,0)`, `(0,3)`. -/
def right_triangle_arrangement : Arrangement :=
  polygon_arrangement [⟨0, 0⟩, ⟨4, 0⟩, ⟨0, 3⟩]

/-- The parallelogram `(0,0)`, `(4,0)`, `(5,1)`, `(1,1)`, one quadrilateral face. -/
def parallelogram_arrangement : Arrangement :=
  polygon_arrangement [⟨0, 0⟩, ⟨4, 0⟩, ⟨5, 1⟩, ⟨1, 1⟩]

/-- The triangle `(0,0)`, `(4,0)`, `(5,1)`, whose angle at `(4,0)` is obtuse. -/
def obtuse_triangle_arrangement : Arrangement :=
  polygon_arrangement [⟨0, 0⟩, ⟨4, 0⟩, ⟨5, 1⟩]

/-- The face is bounded and the triangle that `count_obtuse_triangles` reads off it (the
source and the target of its `outer_ccb` halfedge and the target of the next halfedge)
has an obtuse angle. -/
def is_tested_obtuse (arr : Arrangement) (f : Face) : Prop :=
  f.is_unbounded = false ∧
    has_obtuse_angle (arr.source f.outer_ccb) (arr.target f.outer_ccb)
      (arr.target (arr.next f.outer_ccb))

instance (arr : Arrangement) (f : Face) : Decidable (is_tested_obtuse arr f) := by
  unfold is_tested_obtuse; infer_instance

/-! ## The constrained-triangulation builder -/

/-- The enumeration `CGAL::Orientation`. -/
inductive Orientation
  | CLOCKWISE
  | COLLINEAR
  | COUNTERCLOCKWISE
  deriving DecidableEq

/-- The enumeration `CGAL::Bounded_side`. -/
inductive Bounded_side
  | ON_UNBOUNDED_SIDE
  | ON_BOUNDARY
  | ON_BOUNDED_SIDE
  deriving DecidableEq

/-- The ways a call on a `ConstrainedTriangulation` ends in an exception. -/
inductive BuilderError
  /-- The `std::runtime_error` "Boundary must be a simple polygon." -/
  | InvalidBoundary
  /-- The `std::runtime_error` "Boundary must be counter-clockwise oriented." -/
  | InvalidOrientation
  /-- The exception the triangulation throws out of `insert_constraint` when constraints
  intersect, which its `No_constraint_intersection_tag` forbids. -/
  | IntersectionOfConstraints
  /-- An index outside `points_`, or a vertex that `point_to_index_.at` does not know. -/
  | IndexOutOfRange
  deriving DecidableEq

/-- The members of `Polygon2` that the builder calls, on the vertex sequence of the
polygon. -/
structure PolygonKernel where
  /-- The member `is_simple()`. -/
  is_simple : List Point → Bool
  /-- The member `orientation()`, of which `is_clockwise_oriented()` is the test
  `orientation() == CLOCKWISE`. -/
  orientation : List Point → Orientation
  /-- The member `bounded_side(q)`, of which `has_on_unbounded_side(q)` is the test
  `bounded_side(q) == ON_UNBOUNDED_SIDE`. -/
  bounded_side : List Point → Point → Bounded_side

/-- The calls that change the triangulation `cdt_`; a vertex handle is a `Nat`. -/
structure TriangulationEngine (CDT : Type) where
  /-- The call `cdt_.insert(p)`: the triangulation afterwards and the vertex handle. -/
  insert : CDT → Point → CDT × Nat
  /-- The point `v->point()` of a vertex handle. -/
  point : CDT → Nat → Point
  /-- The call `cdt_.insert_constraint(first, last, close)` on a range of points: the
  triangulation afterwards, and whether the call threw. -/
  insert_constraint : CDT → List Point → Bool → CDT × Bool

/-- The calls that read the triangulation `cdt_`; an edge is a face handle and an index
in `0..2`. -/
structure TriangulationView (CDT : Type) where
  /-- The edges from `finite_edges_begin()` to `finite_edges_end()`. -/
  finite_edges : CDT → List (Nat × Nat)
  /-- The vertex handle `f->vertex(i)`. -/
  vertex : CDT → Nat → Nat → Nat
  /-- The point `v->point()` of a vertex handle. -/
  point : CDT → Nat → Point

/-- The data members of `ConstrainedTriangulation`. -/
structure ConstrainedTriangulation (CDT : Type) where
  /-- The boundary polygon, when one has been stored. -/
  boundary_ : Option (List Point)
  /-- The vertex handles of the added points, in order. -/
  points_ : List Nat
  /-- The map from vertex handle to index; the first binding of a handle is the live one. -/
  point_to_index_ : List (Nat × Int)
  /-- The triangulation. -/
  cdt_ : CDT

/-- The assignment `m[v] = index` on the map. -/
def map_assign (m : List (Nat × Int)) (v : Nat) (index : Int) : List (Nat × Int) :=
  (v, index) :: m.filter (fun b => b.1 != v)

/-- The member `add_point`: the state afterwards and the returned index. -/
def add_point {CDT : Type} (E : TriangulationEngine CDT) (st : ConstrainedTriangulation CDT)
    (p : Point) : ConstrainedTriangulation CDT × Int :=
  let index := st.points_.length
  let r := E.insert st.cdt_ p
  ({ st with
      cdt_ := r.1
      points_ := st.points_ ++ [r.2]
      point_to_index_ := map_assign st.point_to_index_ r.2 index }, index)

/-- The first loop of `add_boundary`: the points `points_[i]->point()` for the indices
of the boundary; `none` when an index lies outside `points_`. -/
def boundary_vertices {CDT : Type} (E : TriangulationEngine CDT)
    (st : ConstrainedTriangulation CDT) : List Int → Option (List Point)
  | [] => some []
  | i :: rest =>
    if 0 ≤ i then
      match st.points_.get? i.toNat, boundary_vertices E st rest with
      | some v, some vs => some (E.point st.cdt_ v :: vs)
      | _, _ => none
    else none

/-- The member `add_boundary`: the state in which the call leaves the builder, and the
exception it ends in, if any. -/
def add_boundary {CDT : Type} (E : TriangulationEngine CDT) (K : PolygonKernel)
    (st : ConstrainedTriangulation CDT) (boundary : List Int) :
    ConstrainedTriangulation CDT × Option BuilderError :=
  match boundary_vertices E st boundary with
  | none => (st, some .IndexOutOfRange)
  | some vertices =>
    let r := E.insert_constraint st.cdt_ vertices true
    if r.2 then ({ st with cdt_ := r.1 }, some .IntersectionOfConstraints)
    else
      let st1 := { st with cdt_ := r.1, boundary_ := some vertices }
      if !K.is_simple vertices then (st1, some .InvalidBoundary)
      else if K.orientation vertices = .CLOCKWISE then (st1, some .InvalidOrientation)
      else (st1, none)

/-- The kernel function `CGAL::midpoint`. -/
def midpoint (p q : Point) : Point := ⟨(p.x + q.x) / 2, (p.y + q.y) / 2⟩

/-- The test `boundary_.has_value() && boundary_->has_on_unbounded_side(middle)`. -/
def outside_boundary (K : PolygonKernel) (boundary : Option (List Point)) (middle : Point) :
    Bool :=
  match boundary with
  | none => false
  | some b => K.bounded_side b middle == .ON_UNBOUNDED_SIDE

/-- The loop of `get_triangulation_edges`, with the edges collected so far. -/
def edges_loop {CDT : Type} (V : TriangulationView CDT) (K : PolygonKernel)
    (st : ConstrainedTriangulation CDT) :
    List (Nat × Nat) → List (Int × Int) → Except BuilderError (List (Int × Int))
  | [], edges => .ok edges
  | e :: rest, edges =>
    let v1 := V.vertex st.cdt_ e.1 ((e.2 + 1) % 3)
    let v2 := V.vertex st.cdt_ e.1 ((e.2 + 2) % 3)
    let middle := midpoint (V.point st.cdt_ v1) (V.point st.cdt_ v2)
    if outside_boundary K st.boundary_ middle then edges_loop V K st rest edges
    else
      match st.point_to_index_.lookup v1, st.point_to_index_.lookup v2 with
      | some i, some j => edges_loop V K st rest (edges ++ [(i, j)])
      | _, _ => .error .IndexOutOfRange

/-- The member `get_triangulation_edges`. -/
def get_triangulation_edges {CDT : Type} (V : TriangulationView CDT) (K : PolygonKernel)
    (st : ConstrainedTriangulation CDT) : Except BuilderError (List (Int × Int)) :=
  edges_loop V K st (V.finite_edges st.cdt_) []

/-! ## Executable models of the geometry library

The builder only forwards to the polygon type and to the constrained triangulation of
the geometry library.  The general statements below hold for every `PolygonKernel` and
every `TriangulationEngine`; the definitions of this section follow the documented
behaviour of the library closely enough to run the builder on concrete inputs. -/

/-- The kernel predicate `orientation(p, q, r)`: the sign of the determinant of `q - p`
and `r - p`. -/
def orientation3 (p q r : Point) : Orientation :=
  let d := (q.x - p.x) * (r.y - p.y) - (q.y - p.y) * (r.x - p.x)
  if d < 0 then .CLOCKWISE else if d = 0 then .COLLINEAR else .COUNTERCLOCKWISE

/-- The kernel order `less_xy`: by `x`, then by `y`. -/
def less_xy (p q : Point) : Bool := decide (p.x < q.x) || (decide (p.x = q.x) && decide (p.y < q.y))

/-- The scan of `left_vertex_2`: the index of the first smallest vertex for `less_xy`,
given the best index and point so far and the index of the head of the list. -/
def left_vertex_scan : List Point → Nat → Nat → Point → Nat
  | [], _, best, _ => best
  | p :: rest, i, best, bp =>
    if less_xy p bp then left_vertex_scan rest (i + 1) i p
    else left_vertex_scan rest (i + 1) best bp

/-- The index of the leftmost (then lowest) vertex. -/
def left_vertex (ps : List Point) : Nat :=
  match ps with
  | [] => 0
  | p :: rest => left_vertex_scan rest 1 0 p

/-- The member `Polygon_2::orientation()`: `COLLINEAR` for fewer than three vertices,
otherwise the orientation of the leftmost vertex with its two neighbours. -/
def polygon_orientation (ps : List Point) : Orientation :=
  let n := ps.length
  if n < 3 then .COLLINEAR
  else
    let i := left_vertex ps
    orientation3 (ps.getD ((i + n - 1) % n) default) (ps.getD i default)
      (ps.getD ((i + 1) % n) default)

/-- The point `q` lies on the closed segment from `a` to `b`. -/
def on_segment (a b q : Point) : Bool :=
  decide (orientation3 a b q = .COLLINEAR) &&
    decide (min a.x b.x ≤ q.x) && decide (q.x ≤ max a.x b.x) &&
    decide (min a.y b.y ≤ q.y) && decide (q.y ≤ max a.y b.y)

/-- The closed segments `a b` and `c d` have a point in common. -/
def do_intersect (a b c d : Point) : Bool :=
  let o1 := orientation3 a b c
  let o2 := orientation3 a b d
  let o3 := orientation3 c d a
  let o4 := orientation3 c d b
  (decide (o1 ≠ o2) && decide (o3 ≠ o4)) ||
    on_segment a b c || on_segment a b d || on_segment c d a || on_segment c d b

/-- The segments `a b` and `c d` cross at a single point interior to both. -/
def crosses_properly (a b c d : Point) : Bool :=
  let o1 := orientation3 a b c
  let o2 := orientation3 a b d
  let o3 := orientation3 c d a
  let o4 := orientation3 c d b
  decide (o1 ≠ .COLLINEAR) && decide (o2 ≠ .COLLINEAR) && decide (o1 ≠ o2) &&
    decide (o3 ≠ .COLLINEAR) && decide (o4 ≠ .COLLINEAR) && decide (o3 ≠ o4)

/-- The edges `s a` and `s c`, which share the vertex `s`, have more than `s` in
common. -/
def overlap_at (a s c : Point) : Bool :=
  decide (orientation3 a s c = .COLLINEAR) && decide (0 < scalar_product (a - s) (c - s))

/-- The `i`-th edge of a polygon of `n` vertices. -/
def polygon_edge (ps : List Point) (i : Nat) : Point × Point :=
  (ps.getD i default, ps.getD ((i + 1) % ps.length) default)

/-- The edges `i < j` of the polygon meet only as a simple polygon allows: consecutive
edges in their common vertex, other edges not at all. -/
def edges_compatible (ps : List Point) (i j : Nat) : Bool :=
  let n := ps.length
  let ei := polygon_edge ps i
  let ej := polygon_edge ps j
  if j = i + 1 then !overlap_at ei.1 ei.2 ej.2
  else if i = 0 ∧ j + 1 = n then !overlap_at ej.1 ei.1 ei.2
  else !do_intersect ei.1 ei.2 ej.1 ej.2

/-- The member `Polygon_2::is_simple()`: a vertex sequence with a repeated point is not
simple; one with fewer than three distinct points is; otherwise the edges may meet only
in the common vertex of consecutive edges. -/
def polygon_is_simple (ps : List Point) : Bool :=
  let n := ps.length
  if !decide ps.Nodup then false
  else if n < 3 then true
  else (List.range n).all (fun i => (List.range n).all (fun j =>
    if i < j then edges_compatible ps i j else true))

/-- The number of edges that a ray from `q` in the direction of increasing `x` crosses. -/
def ray_crossings (ps : List Point) (q : Point) : Nat :=
  ((List.range ps.length).filter (fun i =>
    let e := polygon_edge ps i
    let a := e.1
    let b := e.2
    decide ((q.y < a.y) ≠ (q.y < b.y)) &&
      decide (q.x < a.x + (q.y - a.y) * (b.x - a.x) / (b.y - a.y)))).length

/-- The member `Polygon_2::bounded_side(q)` of a simple polygon. -/
def polygon_bounded_side (ps : List Point) (q : Point) : Bounded_side :=
  if (List.range ps.length).any (fun i => on_segment (polygon_edge ps i).1 (polygon_edge ps i).2 q)
  then .ON_BOUNDARY
  else if ray_crossings ps q % 2 = 1 then .ON_BOUNDED_SIDE
  else .ON_UNBOUNDED_SIDE

/-- The polygon type of the library. -/
def cgal_polygon : PolygonKernel :=
  { is_simple := polygon_is_simple
    orientation := polygon_orientation
    bounded_side := polygon_bounded_side }

/-- A constrained triangulation described by what was put into it: its vertices (a
vertex handle is a position in the list) and its constraint segments. -/
structure ConstraintLog where
  /-- The points of the vertices, without repetition. -/
  vertices : List Point
  /-- The constraint segments, in insertion order. -/
  constraints : List (Point × Point)
  deriving DecidableEq

/-- Insertion of a point: an existing vertex at that point is reused. -/
def log_insert (cdt : ConstraintLog) (p : Point) : ConstraintLog × Nat :=
  if p ∈ cdt.vertices then (cdt, cdt.vertices.indexOf p)
  else ({ cdt with vertices := cdt.vertices ++ [p] }, cdt.vertices.length)

/-- The point where two properly crossing segments meet. -/
def crossing_point (a b c d : Point) : Point :=
  let den := (b.x - a.x) * (d.y - c.y) - (b.y - a.y) * (d.x - c.x)
  let t := ((c.x - a.x) * (d.y - c.y) - (c.y - a.y) * (d.x - c.x)) / den
  ⟨a.x + t * (b.x - a.x), a.y + t * (b.y - a.y)⟩

/-- Insertion of one constraint segment.  With `No_constraint_intersection_tag` the
triangulation throws when the segment crosses an earlier constraint at a point that is
not a vertex; otherwise the segment becomes a constraint. -/
def log_insert_segment (cdt : ConstraintLog) (p q : Point) : ConstraintLog × Bool :=
  if cdt.constraints.any (fun s =>
      crosses_properly p q s.1 s.2 && !decide (crossing_point p q s.1 s.2 ∈ cdt.vertices))
  then (cdt, true)
  else ({ cdt with constraints := cdt.constraints ++ [(p, q)] }, false)

/-- The loop of the range overload of `insert_constraint`: from the previous point `p`,
each new point that differs from it is inserted and joined to it by a constraint.  The
result is the triangulation, the last point, and whether a segment insertion threw. -/
def log_insert_chain (cdt : ConstraintLog) (p : Point) :
    List Point → ConstraintLog × Point × Bool
  | [] => (cdt, p, false)
  | q :: rest =>
    if p ≠ q then
      let r := log_insert_segment (log_insert cdt q).1 p q
      if r.2 then (r.1, q, true) else log_insert_chain r.1 q rest
    else log_insert_chain cdt p rest

/-- The range overload `insert_constraint(first, last, close)`. -/
def log_insert_constraint (cdt : ConstraintLog) (ps : List Point) (close : Bool) :
    ConstraintLog × Bool :=
  match ps with
  | [] => (cdt, false)
  | p0 :: rest =>
    let r := log_insert_chain (log_insert cdt p0).1 p0 rest
    if r.2.2 then (r.1, true)
    else if close && decide (r.2.1 ≠ p0) then log_insert_segment r.1 r.2.1 p0
    else (r.1, false)

/-- The constrained triangulation of the library, as far as insertion goes. -/
def cgal_triangulation : TriangulationEngine ConstraintLog :=
  { insert := log_insert
    point := fun cdt v => cdt.vertices.getD v default
    insert_constraint := log_insert_constraint }

/-- A freshly constructed `ConstrainedTriangulation`. -/
def empty_builder : ConstrainedTriangulation ConstraintLog :=
  { boundary_ := none, points_ := [], point_to_index_ := [], cdt_ := ⟨[], []⟩ }

/-- The builder after `add_point` on each point of a list, in order. -/
def builder_with_points (ps : List Point) : ConstrainedTriangulation ConstraintLog :=
  ps.foldl (fun st p => (add_point cgal_triangulation st p).1) empty_builder

/-- The builder holding the corners `(0,0)`, `(4,0)`, `(4,4)`, `(0,4)` as points 0 to 3. -/
def square_builder : ConstrainedTriangulation ConstraintLog :=
  builder_with_points [⟨0, 0⟩, ⟨4, 0⟩, ⟨4, 4⟩, ⟨0, 4⟩]

/-! ## Reference notions for the builder (from the specification) -/

/-- The points that a sequence of indices of added points designates. -/
def indexed_points {CDT : Type} (E : TriangulationEngine CDT)
    (st : ConstrainedTriangulation CDT) (boundary : List Int) : List Point :=
  boundary.map (fun i => E.point st.cdt_ (st.points_.getD i.toNat 0))

/-- The two endpoints of an edge given as a face and the index opposite to it. -/
def edge_endpoints {CDT : Type} (V : TriangulationView CDT) (cdt : CDT) (e : Nat × Nat) :
    Nat × Nat :=
  (V.vertex cdt e.1 ((e.2 + 1) % 3), V.vertex cdt e.1 ((e.2 + 2) % 3))

/-- The midpoint of an edge. -/
def edge_midpoint {CDT : Type} (V : TriangulationView CDT) (cdt : CDT) (e : Nat × Nat) :
    Point :=
  midpoint (V.point cdt (edge_endpoints V cdt e).1) (V.point cdt (edge_endpoints V cdt e).2)

/-- The point is inside or on the boundary polygon; every point is when no boundary is
set. -/
def inside_or_on (K : PolygonKernel) (boundary : Option (List Point)) (q : Point) : Prop :=
  match boundary with
  | none => True
  | some b => K.bounded_side b q = .ON_BOUNDED_SIDE ∨ K.bounded_side b q = .ON_BOUNDARY

instance (K : PolygonKernel) (boundary : Option (List Point)) (q : Point) :
    Decidable (inside_or_on K boundary q) := by
  unfold inside_or_on
  cases boundary <;> infer_instance

/-- The index that `point_to_index_` holds for a vertex handle. -/
def index_of {CDT : Type} (st : ConstrainedTriangulation CDT) (v : Nat) : Int :=
  (st.point_to_index_.lookup v).getD 0

/-- The finite edges whose midpoint is inside or on the boundary, in iteration order. -/
def kept_edges {CDT : Type} (V : TriangulationView CDT) (K : PolygonKernel)
    (st : ConstrainedTriangulation CDT) : List (Nat × Nat) :=
  (V.finite_edges st.cdt_).filter
    (fun e => decide (inside_or_on K st.boundary_ (edge_midpoint V st.cdt_ e)))

/-! ## An example triangulation -/

/-- A triangulation given by its vertex points, its faces and its finite edges. -/
structure Mesh where
  /-- The points of the vertices. -/
  points : List Point
  /-- The vertex handles of each face. -/
  faces : List (Nat × Nat × Nat)
  /-- The finite edges, each a face and the index of the opposite vertex. -/
  edges : List (Nat × Nat)

/-- Reading a `Mesh`. -/
def mesh_view : TriangulationView Mesh :=
  { finite_edges := fun m => m.edges
    vertex := fun m f i =>
      let t := m.faces.getD f (0, 0, 0)
      if i = 0 then t.1 else if i = 1 then t.2.1 else t.2.2
    point := fun m v => m.points.getD v default }

/-- The square with a notch: the points `(0,0)`, `(4,0)`, `(4,4)`, `(2,1)`, `(0,4)` taken
in this order as the boundary, triangulated by the four triangles around `(2,1)`.  The
edge from `(4,4)` to `(0,4)` spans the notch. -/
def notch_builder : ConstrainedTriangulation Mesh :=
  { boundary_ := some [⟨0, 0⟩, ⟨4, 0⟩, ⟨4, 4⟩, ⟨2, 1⟩, ⟨0, 4⟩]
    points_ := [0, 1, 2, 3, 4]
    point_to_index_ := [(4, 4), (3, 3), (2, 2), (1, 1), (0, 0)]
    cdt_ :=
      { points := [⟨0, 0⟩, ⟨4, 0⟩, ⟨4, 4⟩, ⟨2, 1⟩, ⟨0, 4⟩]
        faces := [(0, 1, 3), (1, 2, 3), (2, 4, 3), (4, 0, 3)]
        edges := [(0, 2), (0, 0), (0, 1), (1, 2), (1, 0), (2, 2), (2, 0), (3, 2)] } }

/-- The view that answers from a given mesh: used where the faces of the triangulation
held by the builder are known. -/
def fixed_view (m : Mesh) : TriangulationView ConstraintLog :=
  { finite_edges := fun _ => m.edges
    vertex := fun _ f i => mesh_view.vertex m f i
    point := fun _ v => mesh_view.point m v }

/-- The builder holding the corners `(0,0)`, `(4,0)`, `(4,4)`, `(0,4)` of the square and
the point `(6,2)` outside it, as points 0 to 4. -/
def outer_point_builder : ConstrainedTriangulation ConstraintLog :=
  builder_with_points [⟨0, 0⟩, ⟨4, 0⟩, ⟨4, 4⟩, ⟨0, 4⟩, ⟨6, 2⟩]

/-- The Delaunay triangulation of those five points: the square cut along the diagonal
from `(0,0)` to `(4,4)`, and the triangle `(4,0)`, `(6,2)`, `(4,4)`.  The four sides of
the square are edges of it, so inserting them as constraints leaves its edges as they
are. -/
def outer_point_mesh : Mesh :=
  { points := [⟨0, 0⟩, ⟨4, 0⟩, ⟨4, 4⟩, ⟨0, 4⟩, ⟨6, 2⟩]
    faces := [(0, 1, 2), (0, 2, 3), (1, 4, 2)]
    edges := [(0, 2), (0, 0), (0, 1), (1, 0), (1, 1), (2, 2), (2, 0)] }

/-! # Theorems -/

/-! ## Characters -/

theorem isdigit_iff (c : Char) : isdigit c = true ↔ 48 ≤ c.toNat ∧ c.toNat ≤ 57 := by
  simp [isdigit]

theorem isdigit_ne_minus {c : Char} (h : isdigit c = true) : c ≠ '-' := by
  rintro rfl; revert h; decide

theorem isdigit_ne_plus {c : Char} (h : isdigit c = true) : c ≠ '+' := by
  rintro rfl; revert h; decide

theorem isdigit_ne_slash {c : Char} (h : isdigit c = true) : c ≠ '/' := by
  rintro rfl; revert h; decide

theorem isdigit_not_isspace {c : Char} (h : isdigit c = true) : isspace c = false := by
  rw [isdigit_iff] at h
  have h1 : c ≠ ' ' := by rintro rfl; revert h; decide
  have h2 : c ≠ '\t' := by rintro rfl; revert h; decide
  have h3 : c ≠ '\n' := by rintro rfl; revert h; decide
  have h4 : c ≠ '\x0b' := by rintro rfl; revert h; decide
  have h5 : c ≠ '\x0c' := by rintro rfl; revert h; decide
  have h6 : c ≠ '\r' := by rintro rfl; revert h; decide
  simp [isspace, h1, h2, h3, h4, h5, h6]

theorem isdigit_is_allowed {c : Char} (h : isdigit c = true) : is_allowed c = true := by
  have h2 := (isdigit_iff c).1 h
  have : ¬ 128 ≤ c.toNat := by omega
  simp [is_allowed, this, h]

theorem digitVal_le_nine {c : Char} (h : isdigit c = true) : digitVal c ≤ 9 := by
  have h2 := (isdigit_iff c).1 h
  unfold digitVal; omega

/-! ## Decimal values -/

theorem foldl_digits (ds : List Char) (acc : Nat) :
    ds.foldl (fun acc c => acc * 10 + digitVal c) acc
      = acc * 10 ^ ds.length + decimal_value ds := by
  induction ds generalizing acc with
  | nil => simp [decimal_value]
  | cons c cs ih =>
    simp only [List.foldl_cons, ih, decimal_value, List.length_cons]
    ring

theorem foldl_digits_zero (ds : List Char) :
    ds.foldl (fun acc c => acc * 10 + digitVal c) 0 = decimal_value ds := by
  rw [foldl_digits]; simp

theorem decimal_value_lt (ds : List Char) (h : ∀ c ∈ ds, isdigit c = true) :
    decimal_value ds < 10 ^ ds.length := by
  induction ds with
  | nil => simp [decimal_value]
  | cons c cs ih =>
    have h1 := digitVal_le_nine (h c (List.mem_cons_self _ _))
    have h2 := ih (fun d hd => h d (List.mem_cons_of_mem _ hd))
    simp only [decimal_value, List.length_cons, pow_succ]
    have h3 : 0 < 10 ^ cs.length := pow_pos (by norm_num) _
    nlinarith

theorem takeWhile_isdigit_of_all (ds : List Char) (h : ∀ c ∈ ds, isdigit c = true) :
    ds.takeWhile isdigit = ds := by
  induction ds with
  | nil => rfl
  | cons c cs ih =>
    simp [List.takeWhile_cons, h c (List.mem_cons_self _ _),
      ih (fun d hd => h d (List.mem_cons_of_mem _ hd))]

/-- The value of `std::stoll` on an optionally signed run of at most 18 digits. -/
theorem stoll_signed_digits (neg : Bool) (ds : List Char) (hne : ds ≠ [])
    (hd : ∀ c ∈ ds, isdigit c = true) (hlen : ds.length ≤ 18) :
    stoll ((if neg then ['-'] else []) ++ ds)
      = .ok (if neg then -(decimal_value ds : Int) else (decimal_value ds : Int)) := by
  have hv := decimal_value_lt ds hd
  have hv2 : decimal_value ds < 10 ^ 18 :=
    lt_of_lt_of_le hv (Nat.pow_le_pow_right (by norm_num) hlen)
  have hemp : ds.isEmpty = false := by
    cases ds with
    | nil => exact absurd rfl hne
    | cons _ _ => rfl
  cases neg with
  | true =>
    have h1 : List.dropWhile isspace ('-' :: ds) = '-' :: ds := by
      rw [List.dropWhile_cons]; rfl
    simp only [stoll, if_true, List.singleton_append, h1, takeWhile_isdigit_of_all ds hd, hemp,
      foldl_digits_zero, INT64_MIN, INT64_MAX]
    simp
    omega
  | false =>
    cases ds with
    | nil => exact absurd rfl hne
    | cons c cs =>
      have hc := hd c (List.mem_cons_self _ _)
      have h1 : List.dropWhile isspace (c :: cs) = c :: cs := by
        rw [List.dropWhile_cons, isdigit_not_isspace hc]; rfl
      have hm : (match c :: cs with
          | '-' :: r => (true, r)
          | '+' :: r => (false, r)
          | r => (false, r)) = (false, c :: cs) := by
        split
        · rename_i heq; cases heq; exact absurd rfl (isdigit_ne_minus hc)
        · rename_i heq; cases heq; exact absurd rfl (isdigit_ne_plus hc)
        · rfl
      simp only [stoll, Bool.false_eq_true, if_false, List.nil_append, h1, hm,
        takeWhile_isdigit_of_all _ hd, hemp, foldl_digits_zero, INT64_MIN, INT64_MAX]
      simp
      omega

/-! ## The 64-bit fast path -/

theorem excess_bits_le (fuel : Nat) : ∀ (a t : Nat), a < 2 ^ (53 + t) →
    excess_bits fuel a ≤ t := by
  induction fuel with
  | zero => intro a t _; simp [excess_bits]
  | succ f ih =>
    intro a t h
    unfold excess_bits
    split
    · omega
    · rename_i h1
      cases t with
      | zero => exact absurd h h1
      | succ t =>
        have h2 : a / 2 < 2 ^ (53 + t) := by
          apply Nat.div_lt_of_lt_mul
          have : 2 ^ (53 + (t + 1)) = 2 * 2 ^ (53 + t) := by ring
          omega
        have := ih (a / 2) t h2
        omega

/-- An integer whose magnitude is a multiple of `2 ^ t` below `2 ^ (53 + t)` is a
`double`: the conversion does not round. -/
theorem to_double_exact (n : Int) (t : Nat) (hlt : n.natAbs < 2 ^ (53 + t))
    (hdvd : 2 ^ t ∣ n.natAbs) : to_double n = n := by
  have he := excess_bits_le 1024 n.natAbs t hlt
  have hd : 2 ^ excess_bits 1024 n.natAbs ∣ n.natAbs :=
    Dvd.dvd.trans (pow_dvd_pow 2 he) hdvd
  have hr : n.natAbs % 2 ^ excess_bits 1024 n.natAbs = 0 := Nat.mod_eq_zero_of_dvd hd
  have hp : 0 < 2 ^ excess_bits 1024 n.natAbs := pow_pos (by norm_num) _
  unfold to_double
  simp only [hr, Nat.mul_zero, hp, if_true, Nat.div_mul_cancel hd]
  exact Int.sign_mul_natAbs n

/-- The recomposition in `to_exact` loses nothing on a signed 64-bit integer. -/
theorem to_exact_eq (x : Int) (hlo : INT64_MIN ≤ x) (hhi : x ≤ INT64_MAX) :
    to_exact x = (x : Rat) := by
  have h32 : (2 : Int) ^ 32 = 4294967296 := by norm_num
  simp only [INT64_MIN, INT64_MAX] at hlo hhi
  have hlo1 : to_double (x % 2 ^ 32) = x % 2 ^ 32 := by
    apply to_double_exact _ 0
    · rw [h32]; norm_num; omega
    · simp
  have hq : to_double (x / 2 ^ 32) = x / 2 ^ 32 := by
    apply to_double_exact _ 0
    · rw [h32]; norm_num; omega
    · simp
  have hhi1 : to_double (x / 2 ^ 32 * 4294967296) = x / 2 ^ 32 * 4294967296 := by
    apply to_double_exact _ 32
    · rw [h32, Int.natAbs_mul]; norm_num; omega
    · rw [h32, Int.natAbs_mul]; norm_num
  unfold to_exact
  simp only [hlo1, hq, hhi1]
  have := Int.ediv_add_emod x (2 ^ 32)
  rw [h32] at this ⊢
  have h2 : ((x / 4294967296 * 4294967296 + x % 4294967296 : Int) : Rat) = (x : Rat) := by
    congr 1; linarith
  rw [← h2]; push_cast; ring

/-! ## String primitives -/

theorem erase_front_find_first_not_of (s : List Char) (ch : Char) :
    erase_front s (find_first_not_of s ch) = s.dropWhile (fun c => c == ch) := by
  induction s with
  | nil => rfl
  | cons c cs ih =>
    by_cases h : c = ch
    · subst h
      simp only [find_first_not_of, bne_self_eq_false, Bool.false_eq_true, if_false,
        List.dropWhile_cons, beq_self_eq_true, if_true]
      rw [← ih]
      cases find_first_not_of cs c <;> rfl
    · have h1 : (c != ch) = true := by simpa using h
      have h2 : (c == ch) = false := by simpa using h
      simp [find_first_not_of, h1, List.dropWhile_cons, h2, erase_front]

theorem find_first_eq_none {s : List Char} {ch : Char} (h : ch ∉ s) :
    find_first_eq s ch = none := by
  induction s with
  | nil => rfl
  | cons c cs ih =>
    have h1 : (c == ch) = false := by
      have : c ≠ ch := fun e => h (e ▸ List.mem_cons_self _ _)
      simpa using this
    simp [find_first_eq, h1, ih (fun hm => h (List.mem_cons_of_mem _ hm))]

theorem find_first_eq_append {a b : List Char} {ch : Char} (h : ch ∉ a) :
    find_first_eq (a ++ ch :: b) ch = some a.length := by
  induction a with
  | nil => simp [find_first_eq]
  | cons c cs ih =>
    have h1 : (c == ch) = false := by
      have : c ≠ ch := fun e => h (e ▸ List.mem_cons_self _ _)
      simpa using this
    simp [find_first_eq, h1, ih (fun hm => h (List.mem_cons_of_mem _ hm))]

/-- Every string either lacks `ch` or splits at its first occurrence. -/
theorem split_at_first (s : List Char) (ch : Char) :
    ch ∉ s ∨ ∃ a b, s = a ++ ch :: b ∧ ch ∉ a := by
  induction s with
  | nil => left; simp
  | cons c cs ih =>
    by_cases h : c = ch
    · right; exact ⟨[], cs, by simp [h], by simp⟩
    · rcases ih with h1 | ⟨a, b, hab, ha⟩
      · left; simp [h1, Ne.symm h]
      · right; exact ⟨c :: a, b, by simp [hab], by simp [ha, Ne.symm h]⟩

theorem find_zero_none {s : List Char} {ch : Char} (h : ch ∉ s) : find s ch 0 = none := by
  simp [find, find_first_eq_none h]

theorem find_zero_append {a b : List Char} {ch : Char} (h : ch ∉ a) :
    find (a ++ ch :: b) ch 0 = some a.length := by
  simp [find, find_first_eq_append h]

theorem find_after_none {a b : List Char} {ch : Char} (h : ch ∉ b) :
    find (a ++ ch :: b) ch (a.length + 1) = none := by
  have : List.drop (a.length + 1) (a ++ ch :: b) = b := by
    rw [List.drop_append_eq_append_drop]; simp
  simp [find, this, find_first_eq_none h]

theorem find_after_some {a b : List Char} {ch : Char} (h : ch ∈ b) :
    (find (a ++ ch :: b) ch (a.length + 1)).isSome = true := by
  have : List.drop (a.length + 1) (a ++ ch :: b) = b := by
    rw [List.drop_append_eq_append_drop]; simp
  rcases split_at_first b ch with h1 | ⟨c, d, hcd, hc⟩
  · exact absurd h h1
  · simp [find, this, hcd, find_first_eq_append hc]

theorem substr_zero_append (a b : List Char) (ch : Char) :
    substr (a ++ ch :: b) 0 a.length = a := by
  simp [substr]

theorem substr_from_append (a b : List Char) (ch : Char) :
    substr_from (a ++ ch :: b) (a.length + 1) = b := by
  unfold substr_from
  rw [List.drop_append_eq_append_drop]; simp

/-- The three normalisation steps of `str_to_exact` compute `stripped`. -/
theorem strip_eq (s : List Char) :
    erase_front (erase_front (remove_whitespace s) (find_first_not_of (remove_whitespace s) '+'))
      (find_first_not_of
        (erase_front (remove_whitespace s) (find_first_not_of (remove_whitespace s) '+')) '0')
      = stripped s := by
  rw [erase_front_find_first_not_of, erase_front_find_first_not_of]
  rfl

/-! ## Integer components -/

theorem checked_nil : checked_int_str_to_exact [] = .ok 0 := by
  simp [checked_int_str_to_exact, check_sign]

theorem checked_lone_minus :
    checked_int_str_to_exact ['-'] = .error .StollInvalidArgument := by
  decide

theorem integer_str_signed_digits (neg : Bool) (ds : List Char) (hne : ds ≠ [])
    (hd : ∀ c ∈ ds, isdigit c = true) :
    integer_str_to_exact ((if neg then ['-'] else []) ++ ds)
      = .ok (if neg then -(decimal_value ds : Rat) else (decimal_value ds : Rat)) := by
  have hemp : ds.isEmpty = false := by
    cases ds with
    | nil => exact absurd rfl hne
    | cons _ _ => rfl
  have hall : ds.all isdigit = true := List.all_eq_true.2 hd
  cases neg with
  | true =>
    simp only [integer_str_to_exact, if_true, List.singleton_append, hemp, hall,
      foldl_digits_zero]
    simp
  | false =>
    cases ds with
    | nil => exact absurd rfl hne
    | cons c cs =>
      have hc := hd c (List.mem_cons_self _ _)
      have hm : (match c :: cs with
          | '-' :: r => (true, r)
          | r => (false, r)) = (false, c :: cs) := by
        split
        · rename_i heq; cases heq; exact absurd rfl (isdigit_ne_minus hc)
        · rfl
      simp only [integer_str_to_exact, Bool.false_eq_true, if_false, List.nil_append, hm, hemp,
        hall, foldl_digits_zero]
      simp

/-- Both conversion paths of `checked_int_str_to_exact` return the integer that an
optionally signed, non-empty run of digits denotes. -/
theorem checked_signed_digits (neg : Bool) (ds : List Char) (hne : ds ≠ [])
    (hd : ∀ c ∈ ds, isdigit c = true) :
    checked_int_str_to_exact ((if neg then ['-'] else []) ++ ds)
      = .ok (if neg then -(decimal_value ds : Rat) else (decimal_value ds : Rat)) := by
  have hcs : check_sign ((if neg then ['-'] else []) ++ ds) = .ok () := by
    cases neg with
    | true =>
      simp [check_sign, List.all_eq_true.2 hd]
    | false =>
      cases ds with
      | nil => exact absurd rfl hne
      | cons c cs =>
        simp [check_sign]
        exact fun x hx => hd x (List.mem_cons_of_mem _ hx)
  have hemp : ((if neg then ['-'] else []) ++ ds).isEmpty = false := by
    cases ds with
    | nil => exact absurd rfl hne
    | cons _ _ => cases neg <;> rfl
  unfold checked_int_str_to_exact
  simp only [hcs, hemp]
  by_cases hlen : ((if neg then ['-'] else []) ++ ds).length ≤ 16
  · have hl : ds.length ≤ 16 := by
      rw [List.length_append] at hlen; omega
    have hv : decimal_value ds < 10 ^ 16 :=
      lt_of_lt_of_le (decimal_value_lt ds hd) (Nat.pow_le_pow_right (by norm_num) hl)
    simp only [hlen, if_true, Bool.false_eq_true, if_false,
      stoll_signed_digits neg ds hne hd (by omega)]
    rw [to_exact_eq]
    · cases neg <;> simp
    · simp only [INT64_MIN]; cases neg <;> simp <;> omega
    · simp only [INT64_MAX]; cases neg <;> simp <;> omega
  · simp only [hlen, if_false]
    exact integer_str_signed_digits neg ds hne hd

/-! ## The paths through `str_to_exact` -/

theorem str_to_exact_empty {s : List Char} (h : stripped s = []) :
    str_to_exact s = .ok 0 := by
  simp only [str_to_exact, strip_eq, h]
  rfl

theorem str_to_exact_not_allowed {s : List Char} (hne : stripped s ≠ [])
    (h : (stripped s).all is_allowed = false) :
    str_to_exact s = .error .InvalidNumberLiteral := by
  have hemp : (stripped s).isEmpty = false := by
    cases hs : stripped s with
    | nil => exact absurd hs hne
    | cons _ _ => rfl
  simp only [str_to_exact, strip_eq, hemp, check_allowed, h]
  rfl

theorem str_to_exact_integer {s : List Char} (hne : stripped s ≠ [])
    (hall : (stripped s).all is_allowed = true) (hns : '/' ∉ stripped s) :
    str_to_exact s = checked_int_str_to_exact (stripped s) := by
  have hemp : (stripped s).isEmpty = false := by
    cases hs : stripped s with
    | nil => exact absurd hs hne
    | cons _ _ => rfl
  simp only [str_to_exact, strip_eq, hemp, check_allowed, hall, find_zero_none hns]
  rfl

theorem str_to_exact_two_slashes {s a b : List Char} (hs : stripped s = a ++ '/' :: b)
    (hall : (stripped s).all is_allowed = true) (ha : '/' ∉ a) (hb : '/' ∈ b) :
    str_to_exact s = .error .InvalidNumberLiteral := by
  have hemp : (a ++ '/' :: b).isEmpty = false := by cases a <;> rfl
  rw [hs] at hall
  simp only [str_to_exact, strip_eq, hs, hemp, check_allowed, hall, find_zero_append ha,
    find_after_some hb]
  rfl

theorem ratio_path_eq {s a b : List Char} (hs : stripped s = a ++ '/' :: b)
    (hall : (stripped s).all is_allowed = true) (ha : '/' ∉ a) (hb : '/' ∉ b) :
    str_to_exact s =
      match checked_int_str_to_exact a with
      | .error e => .error e
      | .ok numerator =>
        match checked_int_str_to_exact b with
        | .error e => .error e
        | .ok denominator =>
          if denominator = 0 then .error .DivisionByZero
          else .ok (numerator / denominator) := by
  have hemp : (a ++ '/' :: b).isEmpty = false := by cases a <;> rfl
  rw [hs] at hall
  simp only [str_to_exact, strip_eq, hs, hemp, check_allowed, hall, find_zero_append ha,
    find_after_none hb, substr_zero_append, substr_from_append]
  rfl

/-! ## Leading zeros and signs -/

theorem dropWhile_replicate_append (ch : Char) (k : Nat) (r : List Char) :
    (List.replicate k ch ++ r).dropWhile (fun c => c == ch) = r.dropWhile (fun c => c == ch) := by
  induction k with
  | zero => rfl
  | succ k ih => simp [List.replicate_succ, List.dropWhile_cons, ih]

theorem dropWhile_zero_digits (ds : List Char) (hd : ∀ c ∈ ds, isdigit c = true) :
    (∀ c ∈ ds.dropWhile (fun c => c == '0'), isdigit c = true) ∧
    decimal_value (ds.dropWhile (fun c => c == '0')) = decimal_value ds := by
  induction ds with
  | nil => simp
  | cons c cs ih =>
    have ih1 := ih (fun d hd1 => hd d (List.mem_cons_of_mem _ hd1))
    by_cases h : c = '0'
    · subst h
      simp only [List.dropWhile_cons, beq_self_eq_true, if_true]
      refine ⟨ih1.1, ?_⟩
      rw [ih1.2]
      simp [decimal_value, digitVal]
    · have h2 : (c == '0') = false := by simpa using h
      simp only [List.dropWhile_cons, h2]
      exact ⟨hd, rfl⟩

theorem dropWhile_plus_of_digits_or_minus (neg : Bool) (m : Nat) (ds : List Char)
    (hd : ∀ c ∈ ds, isdigit c = true) :
    (List.replicate m '0' ++ (if neg then ['-'] else []) ++ ds).dropWhile (fun c => c == '+')
      = List.replicate m '0' ++ (if neg then ['-'] else []) ++ ds := by
  cases m with
  | succ m => simp [List.replicate_succ, List.dropWhile_cons]
  | zero =>
    cases neg with
    | true => simp [List.dropWhile_cons]
    | false =>
      cases ds with
      | nil => rfl
      | cons c cs =>
        have h : (c == '+') = false := by
          simpa using isdigit_ne_plus (hd c (List.mem_cons_self _ _))
        simp [List.dropWhile_cons, h]

/-! ## Integer literals -/

theorem stripped_of_form (s : List Char) (n m : Nat) (neg : Bool) (ds : List Char)
    (hform : remove_whitespace s
      = List.replicate n '+' ++ List.replicate m '0' ++ (if neg then ['-'] else []) ++ ds)
    (hd : ∀ c ∈ ds, isdigit c = true) :
    stripped s = ((if neg then ['-'] else []) ++ ds).dropWhile (fun c => c == '0') := by
  have h1 : stripped s = ((remove_whitespace s).dropWhile (fun c => c == '+')).dropWhile
      (fun c => c == '0') := rfl
  rw [h1, hform]
  have h2 : List.replicate n '+' ++ List.replicate m '0' ++ (if neg then ['-'] else []) ++ ds
      = List.replicate n '+' ++ (List.replicate m '0' ++ (if neg then ['-'] else []) ++ ds) := by
    simp [List.append_assoc]
  rw [h2, dropWhile_replicate_append, dropWhile_plus_of_digits_or_minus neg m ds hd,
    List.append_assoc, dropWhile_replicate_append]

/-- C1: a literal that, once spaces, tabs and newlines are removed, is a run of `+`, a
run of `0`, and then nothing or an optional `-` with at least one digit, is accepted by
`str_to_exact`, and the result is exactly the integer it denotes, whichever of the
64-bit path (components of at most 16 characters) and the arbitrary-precision path
(longer components) converts it. -/
theorem str_to_exact_integer_literal (s : List Char) (n m : Nat) (neg : Bool) (ds : List Char)
    (hform : remove_whitespace s
      = List.replicate n '+' ++ List.replicate m '0' ++ (if neg then ['-'] else []) ++ ds)
    (hd : ∀ c ∈ ds, isdigit c = true) (hne : neg = true → ds ≠ []) :
    str_to_exact s
      = .ok (if neg then -(decimal_value ds : Rat) else (decimal_value ds : Rat)) := by
  have hs := stripped_of_form s n m neg ds hform hd
  cases neg with
  | true =>
    have hds := hne rfl
    have hs1 : stripped s = '-' :: ds := by
      rw [hs]; simp [List.dropWhile_cons]
    have hall : (stripped s).all is_allowed = true := by
      rw [hs1, List.all_cons]
      simp only [Bool.and_eq_true, List.all_eq_true]
      exact ⟨by decide, fun c hc => isdigit_is_allowed (hd c hc)⟩
    have hns : '/' ∉ stripped s := by
      rw [hs1]
      intro hmem
      rcases List.mem_cons.1 hmem with h | h
      · exact absurd h (by decide)
      · exact isdigit_ne_slash (hd _ h) rfl
    rw [str_to_exact_integer (by rw [hs1]; simp) hall hns, hs1]
    exact checked_signed_digits true ds hds hd
  | false =>
    have hz := dropWhile_zero_digits ds hd
    have hs1 : stripped s = ds.dropWhile (fun c => c == '0') := by
      rw [hs]; simp
    by_cases hemp : ds.dropWhile (fun c => c == '0') = []
    · rw [str_to_exact_empty (by rw [hs1, hemp])]
      have : decimal_value ds = 0 := by rw [← hz.2, hemp]; rfl
      simp [this]
    · have hall : (stripped s).all is_allowed = true := by
        rw [hs1, List.all_eq_true]
        exact fun c hc => isdigit_is_allowed (hz.1 c hc)
      have hns : '/' ∉ stripped s := by
        rw [hs1]
        exact fun hmem => isdigit_ne_slash (hz.1 _ hmem) rfl
      rw [str_to_exact_integer (by rw [hs1]; exact hemp) hall hns, hs1]
      have := checked_signed_digits false _ hemp hz.1
      simp only [Bool.false_eq_true, if_false, List.nil_append] at this
      rw [this, hz.2]
      simp

/-- The literals named in C1, each obtained from `str_to_exact_integer_literal`. -/
theorem str_to_exact_integer_literal_witness :
    str_to_exact "000007".toList = .ok 7 ∧
    str_to_exact "+007".toList = .ok 7 ∧
    str_to_exact "".toList = .ok 0 ∧
    str_to_exact "0".toList = .ok 0 ∧
    str_to_exact "+0".toList = .ok 0 ∧
    str_to_exact "-0".toList = .ok 0 ∧
    str_to_exact "-123456789012345".toList = .ok (-123456789012345) ∧
    str_to_exact "-00123456789012345".toList = .ok (-123456789012345) := by
  refine ⟨?_, ?_, ?_, ?_, ?_, ?_, ?_, ?_⟩
  · simpa [decimal_value, digitVal] using
      str_to_exact_integer_literal "000007".toList 0 5 false ['7'] (by decide) (by decide)
        (by simp)
  · simpa [decimal_value, digitVal] using
      str_to_exact_integer_literal "+007".toList 1 2 false ['7'] (by decide) (by decide)
        (by simp)
  · simpa [decimal_value, digitVal] using
      str_to_exact_integer_literal "".toList 0 0 false [] (by decide) (by decide) (by simp)
  · simpa [decimal_value, digitVal] using
      str_to_exact_integer_literal "0".toList 0 1 false [] (by decide) (by decide) (by simp)
  · simpa [decimal_value, digitVal] using
      str_to_exact_integer_literal "+0".toList 1 1 false [] (by decide) (by decide) (by simp)
  · simpa [decimal_value, digitVal] using
      str_to_exact_integer_literal "-0".toList 0 0 true ['0'] (by decide) (by decide)
        (by simp)
  · have h := str_to_exact_integer_literal "-123456789012345".toList 0 0 true
      "123456789012345".toList (by decide) (by decide) (by simp)
    have hv : decimal_value "123456789012345".toList = 123456789012345 := by decide
    simpa [hv] using h
  · have h := str_to_exact_integer_literal "-00123456789012345".toList 0 0 true
      "00123456789012345".toList (by decide) (by decide) (by simp)
    have hv : decimal_value "00123456789012345".toList = 123456789012345 := by decide
    simpa [hv] using h

/-! ## Serialisation and the round trip -/

theorem digit_char_toNat {d : Nat} (h : d < 10) : (digit_char d).toNat = 48 + d := by
  interval_cases d <;> rfl

theorem digit_char_isdigit {d : Nat} (h : d < 10) : isdigit (digit_char d) = true := by
  rw [isdigit_iff, digit_char_toNat h]; omega

theorem digitVal_digit_char {d : Nat} (h : d < 10) : digitVal (digit_char d) = d := by
  unfold digitVal; rw [digit_char_toNat h]; omega

theorem decimal_value_append_single (ds : List Char) (c : Char) :
    decimal_value (ds ++ [c]) = decimal_value ds * 10 + digitVal c := by
  induction ds with
  | nil => simp [decimal_value]
  | cons d ds ih =>
    have h : decimal_value (d :: (ds ++ [c]))
        = digitVal d * 10 ^ (ds ++ [c]).length + decimal_value (ds ++ [c]) := rfl
    have h2 : decimal_value (d :: ds) = digitVal d * 10 ^ ds.length + decimal_value ds := rfl
    rw [List.cons_append, h, h2, ih, List.length_append, List.length_singleton, pow_succ]
    ring

/-- The digit string of `n`: digits only, not empty, denoting `n`, and starting with a
non-zero digit unless `n` is zero. -/
theorem nat_digits_spec (fuel : Nat) : ∀ n, n < fuel →
    (∀ c ∈ nat_digits fuel n, isdigit c = true) ∧
    decimal_value (nat_digits fuel n) = n ∧
    ∃ c rest, nat_digits fuel n = c :: rest ∧ (n ≠ 0 → c ≠ '0') := by
  induction fuel with
  | zero => intro n h; omega
  | succ fuel ih =>
    intro n hn
    by_cases h10 : n < 10
    · simp only [nat_digits, h10, if_true]
      refine ⟨?_, ?_, digit_char n, [], rfl, ?_⟩
      · intro c hc
        rw [List.mem_singleton.1 hc]
        exact digit_char_isdigit h10
      · simp [decimal_value, digitVal_digit_char h10]
      · intro hn0 hc
        have := digit_char_toNat h10
        rw [hc] at this
        have h48 : ('0' : Char).toNat = 48 := rfl
        omega
    · simp only [nat_digits, h10, if_false]
      have hm : n % 10 < 10 := Nat.mod_lt _ (by norm_num)
      obtain ⟨h1, h2, c, rest, h3, h4⟩ := ih (n / 10) (by omega)
      refine ⟨?_, ?_, c, rest ++ [digit_char (n % 10)], ?_, ?_⟩
      · intro x hx
        rcases List.mem_append.1 hx with hx | hx
        · exact h1 x hx
        · rw [List.mem_singleton.1 hx]
          exact digit_char_isdigit hm
      · rw [decimal_value_append_single, h2, digitVal_digit_char hm]
        omega
      · rw [h3]; rfl
      · intro _
        exact h4 (by omega)

theorem nat_to_string_spec (n : Nat) :
    (∀ c ∈ nat_to_string n, isdigit c = true) ∧
    decimal_value (nat_to_string n) = n ∧
    ∃ c rest, nat_to_string n = c :: rest ∧ (n ≠ 0 → c ≠ '0') :=
  nat_digits_spec (n + 1) n (Nat.lt_succ_self n)

theorem nat_to_string_ne_nil (n : Nat) : nat_to_string n ≠ [] := by
  obtain ⟨_, _, c, rest, h, _⟩ := nat_to_string_spec n
  rw [h]; simp

theorem isdigit_not_ws {c : Char} (h : isdigit c = true) : is_ws c = false := by
  have h1 : c ≠ ' ' := by rintro rfl; revert h; decide
  have h2 : c ≠ '\t' := by rintro rfl; revert h; decide
  have h3 : c ≠ '\n' := by rintro rfl; revert h; decide
  simp [is_ws, h1, h2, h3]

/-- A string without white space that starts with neither `+` nor `0` is left alone by
the normalisation. -/
theorem stripped_eq_self (c : Char) (rest : List Char)
    (hws : ∀ x ∈ c :: rest, is_ws x = false) (hp : c ≠ '+') (hz : c ≠ '0') :
    stripped (c :: rest) = c :: rest := by
  have hf : (c :: rest).filter (fun x => !(x == ' ' || x == '\t' || x == '\n')) = c :: rest := by
    rw [List.filter_eq_self]
    intro x hx
    have := hws x hx
    simp only [is_ws] at this
    simp [this]
  have h1 : (c == '+') = false := by simpa using hp
  have h2 : (c == '0') = false := by simpa using hz
  simp only [stripped, hf, List.dropWhile_cons, h1, h2]
  simp [hz]

theorem to_rational_string_zero : to_rational_string 0 = ['0'] := by
  decide

theorem Rat_natAbs_num_cast (q : Rat) :
    (if q.num < 0 then -((q.num.natAbs : Nat) : Rat) else ((q.num.natAbs : Nat) : Rat))
      = (q.num : Rat) := by
  split
  · rename_i h
    have e : ((q.num.natAbs : Nat) : Int) = -q.num := by omega
    have h2 : -(((q.num.natAbs : Nat) : Int) : Rat) = (q.num : Rat) := by rw [e]; simp
    rw [Int.cast_natCast] at h2
    exact h2
  · rename_i h
    have e : ((q.num.natAbs : Nat) : Int) = q.num := by omega
    have h2 : (((q.num.natAbs : Nat) : Int) : Rat) = (q.num : Rat) := by rw [e]
    rw [Int.cast_natCast] at h2
    exact h2

/-- C2: whenever `str_to_exact` accepts a string `s` with value `q`, writing `q` with
`to_rational_string` (the reduced integer or `p/q` form, `-` first when negative) and
parsing that string again succeeds with the same value. -/
theorem str_to_exact_round_trip (s : List Char) (q : Rat) (h : str_to_exact s = .ok q) :
    str_to_exact (to_rational_string q) = .ok q ∧
    str_to_exact (to_rational_string q) = str_to_exact s := by
  rw [h, and_self]
  by_cases hq : q = 0
  · subst hq
    rw [to_rational_string_zero]
    decide
  have hnum : q.num ≠ 0 := fun h => hq (Rat.num_eq_zero.1 h)
  have hN := nat_to_string_spec q.num.natAbs
  have hD := nat_to_string_spec q.den
  obtain ⟨hNd, hNv, cN, rN, hNs, hNz⟩ := hN
  obtain ⟨hDd, hDv, cD, rD, hDs, hDz⟩ := hD
  have hcN : cN ≠ '0' := hNz (by omega)
  have hcNd : isdigit cN = true := hNd cN (by rw [hNs]; exact List.mem_cons_self _ _)
  -- the component holding the numerator
  obtain ⟨neg, hneg⟩ : ∃ neg : Bool, neg = decide (q.num < 0) := ⟨_, rfl⟩
  have hsign : (if q.num < 0 then ['-'] else []) = (if neg then ['-'] else [] : List Char) := by
    by_cases h : q.num < 0 <;> simp [hneg, h]
  have hnumcomp : checked_int_str_to_exact
      ((if neg then ['-'] else []) ++ nat_to_string q.num.natAbs) = .ok (q.num : Rat) := by
    rw [checked_signed_digits neg _ (nat_to_string_ne_nil _) hNd, hNv]
    have := Rat_natAbs_num_cast q
    by_cases h : q.num < 0 <;> simp [hneg, h] at this ⊢ <;> exact this
  have hnumall : ∀ x ∈ (if neg then ['-'] else []) ++ nat_to_string q.num.natAbs,
      is_allowed x = true ∧ is_ws x = false ∧ x ≠ '/' := by
    intro x hx
    rcases List.mem_append.1 hx with hx | hx
    · cases neg with
      | true =>
        simp only [if_true, List.mem_singleton] at hx
        subst hx; decide
      | false => simp at hx
    · exact ⟨isdigit_is_allowed (hNd x hx), isdigit_not_ws (hNd x hx),
        isdigit_ne_slash (hNd x hx)⟩
  obtain ⟨c0, r0, hhead, hc0p, hc0z⟩ : ∃ c0 r0,
      (if neg then ['-'] else []) ++ nat_to_string q.num.natAbs = c0 :: r0 ∧
      c0 ≠ '+' ∧ c0 ≠ '0' := by
    cases neg with
    | true => exact ⟨'-', nat_to_string q.num.natAbs, rfl, by decide, by decide⟩
    | false => exact ⟨cN, rN, by simp [hNs], isdigit_ne_plus hcNd, hcN⟩
  unfold to_rational_string
  rw [hsign]
  by_cases hden : q.den = 1
  · -- an integer
    simp only [hden, if_true, List.append_nil]
    have hst : stripped ((if neg then ['-'] else []) ++ nat_to_string q.num.natAbs)
        = (if neg then ['-'] else []) ++ nat_to_string q.num.natAbs := by
      rw [hhead]
      apply stripped_eq_self _ _ _ hc0p hc0z
      intro x hx; rw [← hhead] at hx; exact (hnumall x hx).2.1
    rw [str_to_exact_integer (by rw [hst, hhead]; simp)
      (by rw [hst, List.all_eq_true]; exact fun x hx => (hnumall x hx).1)
      (by rw [hst]; exact fun hx => (hnumall _ hx).2.2 rfl), hst, hnumcomp]
    congr 1
    exact (Rat.den_eq_one_iff q).1 hden
  · -- a proper fraction
    simp only [hden, if_false]
    have hdall : ∀ x ∈ nat_to_string q.den,
        is_allowed x = true ∧ is_ws x = false ∧ x ≠ '/' := fun x hx =>
      ⟨isdigit_is_allowed (hDd x hx), isdigit_not_ws (hDd x hx), isdigit_ne_slash (hDd x hx)⟩
    have hst : stripped ((if neg then ['-'] else []) ++ nat_to_string q.num.natAbs
          ++ '/' :: nat_to_string q.den)
        = ((if neg then ['-'] else []) ++ nat_to_string q.num.natAbs)
          ++ '/' :: nat_to_string q.den := by
      rw [hhead, List.cons_append]
      apply stripped_eq_self _ _ _ hc0p hc0z
      intro x hx
      rw [← List.cons_append, ← hhead] at hx
      rcases List.mem_append.1 hx with hx | hx
      · exact (hnumall x hx).2.1
      · rcases List.mem_cons.1 hx with hx | hx
        · subst hx; decide
        · exact (hdall x hx).2.1
    have hallowed : (stripped ((if neg then ['-'] else []) ++ nat_to_string q.num.natAbs
          ++ '/' :: nat_to_string q.den)).all is_allowed = true := by
      rw [hst, List.all_eq_true]
      intro x hx
      rcases List.mem_append.1 hx with hx | hx
      · exact (hnumall x hx).1
      · rcases List.mem_cons.1 hx with hx | hx
        · subst hx; decide
        · exact (hdall x hx).1
    rw [ratio_path_eq hst hallowed (fun hx => (hnumall _ hx).2.2 rfl)
      (fun hx => (hdall _ hx).2.2 rfl), hnumcomp]
    have hdencomp := checked_signed_digits false _ (nat_to_string_ne_nil q.den) hDd
    simp only [Bool.false_eq_true, if_false, List.nil_append, hDv] at hdencomp
    rw [hdencomp]
    have hd0 : ((q.den : Nat) : Rat) ≠ 0 := by
      exact_mod_cast q.den_nz
    simp only [hd0, if_false]
    congr 1
    exact Rat.num_div_den q

/-- The literal `10/4` parses to `5/2`, which is written `5/2` and parsed back. -/
theorem str_to_exact_round_trip_witness :
    str_to_exact "10/4".toList = .ok (5 / 2) ∧
    to_rational_string (5 / 2) = "5/2".toList ∧
    str_to_exact (to_rational_string (5 / 2)) = .ok (5 / 2) :=
  ⟨by decide!, by decide!, (str_to_exact_round_trip "10/4".toList (5 / 2) (by decide!)).1⟩

/-! ## Signs -/

/-- C3 as stated fails at the literal `1`, `/`, `-`, `2`: the `-` leads the denominator
component, the sign check (run on each component separately) lets it through, and the
literal is accepted with value `-1/2` rather than rejected. -/
theorem str_to_exact_sign_in_denominator_accepted :
    str_to_exact ['1', '/', '-', '2'] = .ok (-1 / 2) ∧
    ¬ (str_to_exact ['1', '/', '-', '2'] = .error .InvalidNumberSign ∨
       str_to_exact ['1', '/', '-', '2'] = .error .InvalidNumberLiteral) := by
  have h : str_to_exact ['1', '/', '-', '2'] = .ok (-1 / 2) := by decide!
  refine ⟨h, ?_⟩
  rw [h]
  rintro (h1 | h1) <;> cases h1

/-- C3, amended: `1-2` and `--3`, where a `-` is not the first character of its integer
component, fail with `InvalidNumberSign`; the literal `1`, `/`, `-`, `2`, where the `-`
is the first character of the denominator component, is accepted with value `-1/2`;
`-5` and `-5/3` are accepted with values `-5` and `-5/3`. -/
theorem str_to_exact_sign_literals :
    str_to_exact "1-2".toList = .error .InvalidNumberSign ∧
    str_to_exact "--3".toList = .error .InvalidNumberSign ∧
    str_to_exact ['1', '/', '-', '2'] = .ok (-1 / 2) ∧
    str_to_exact "-5".toList = .ok (-5) ∧
    str_to_exact "-5/3".toList = .ok (-5 / 3) := by
  refine ⟨?_, ?_, ?_, ?_, ?_⟩
  · decide
  · decide
  · decide!
  · decide!
  · decide!

/-! ## Ratios -/

theorem is_allowed_cases {c : Char} (h : is_allowed c = true) :
    isdigit c = true ∨ c = '/' ∨ c = '-' := by
  unfold is_allowed at h
  split at h
  · cases h
  · simp only [Bool.or_eq_true, beq_iff_eq] at h
    rcases h with (h | h) | h
    · exact Or.inl h
    · exact Or.inr (Or.inl h)
    · exact Or.inr (Or.inr h)

theorem component_value_of_digits {ds : List Char} (hd : ∀ c ∈ ds, isdigit c = true) :
    component_value ds = (decimal_value ds : Int) := by
  unfold component_value
  split
  · rename_i r
    exact absurd rfl (isdigit_ne_minus (hd '-' (List.mem_cons_self _ _)))
  · rfl

/-- A component that passed the character check and the sign check, holds no `/` and is
not the lone `-`, is converted to the integer it denotes. -/
theorem checked_component (c : List Char) (hall : ∀ x ∈ c, is_allowed x = true)
    (hns : '/' ∉ c) (hs : check_sign c = .ok ()) (hm : c ≠ ['-']) :
    checked_int_str_to_exact c = .ok ((component_value c : Int) : Rat) := by
  cases c with
  | nil => rw [checked_nil]; simp [component_value, decimal_value]
  | cons x rest =>
    have hrest : ∀ y ∈ rest, isdigit y = true := by
      unfold check_sign at hs
      simp only [List.isEmpty_cons, Bool.false_eq_true, if_false, List.drop_succ_cons,
        List.drop_zero] at hs
      split at hs
      · rename_i h; exact List.all_eq_true.1 h
      · cases hs
    rcases is_allowed_cases (hall x (List.mem_cons_self _ _)) with hx | hx | hx
    · have hd : ∀ y ∈ x :: rest, isdigit y = true := by
        intro y hy
        rcases List.mem_cons.1 hy with h | h
        · rw [h]; exact hx
        · exact hrest y h
      have := checked_signed_digits false (x :: rest) (by simp) hd
      simp only [Bool.false_eq_true, if_false, List.nil_append] at this
      rw [this, component_value_of_digits hd]
      simp
    · exact absurd (hx ▸ List.mem_cons_self _ _) hns
    · subst hx
      have hne : rest ≠ [] := fun h => hm (by rw [h])
      have := checked_signed_digits true rest hne hrest
      simp only [if_true, List.singleton_append] at this
      rw [this]
      simp [component_value]

/-- C4 as stated fails when a component is the lone `-`, which passes the character
check and the sign check.  In the literal `-`, `/`, `0` the denominator parses to zero
but the failure is the `std::invalid_argument` of `std::stoll`, not `DivisionByZero`;
in the literal `5`, `/`, `-` the outcome is neither `DivisionByZero` nor a value. -/
theorem str_to_exact_lone_minus_component :
    (stripped ['-', '/', '0'] = ['-'] ++ '/' :: ['0'] ∧
      check_allowed (stripped ['-', '/', '0']) = .ok () ∧
      check_sign ['-'] = .ok () ∧ check_sign ['0'] = .ok () ∧
      checked_int_str_to_exact ['0'] = .ok 0 ∧
      str_to_exact ['-', '/', '0'] = .error .StollInvalidArgument) ∧
    (stripped ['5', '/', '-'] = ['5'] ++ '/' :: ['-'] ∧
      check_allowed (stripped ['5', '/', '-']) = .ok () ∧
      check_sign ['5'] = .ok () ∧ check_sign ['-'] = .ok () ∧
      str_to_exact ['5', '/', '-'] = .error .StollInvalidArgument) := by
  refine ⟨⟨?_, ?_, ?_, ?_, ?_, ?_⟩, ?_, ?_, ?_, ?_, ?_⟩
  · decide
  · decide
  · decide
  · decide
  · decide!
  · decide
  · decide
  · decide
  · decide
  · decide
  · decide

/-- C4, amended: when the stripped literal holds exactly one `/`, both components pass
the character check and the sign check, and neither component is the lone `-`, each
component is converted to the integer it denotes, `str_to_exact` fails with
`DivisionByZero` exactly when the denominator is zero, and otherwise it returns the
exact quotient of the two integers. -/
theorem str_to_exact_ratio (s num den : List Char)
    (hs : stripped s = num ++ '/' :: den) (hn : '/' ∉ num) (hd : '/' ∉ den)
    (hall : check_allowed (stripped s) = .ok ())
    (hsn : check_sign num = .ok ()) (hsd : check_sign den = .ok ())
    (hnm : num ≠ ['-']) (hdm : den ≠ ['-']) :
    checked_int_str_to_exact num = .ok ((component_value num : Int) : Rat) ∧
    checked_int_str_to_exact den = .ok ((component_value den : Int) : Rat) ∧
    (str_to_exact s = .error .DivisionByZero ↔ component_value den = 0) ∧
    (component_value den ≠ 0 →
      str_to_exact s = .ok ((component_value num : Rat) / (component_value den : Rat))) := by
  have hall1 : (stripped s).all is_allowed = true := by
    unfold check_allowed at hall
    split at hall
    · assumption
    · cases hall
  have hall2 : ∀ x ∈ num ++ '/' :: den, is_allowed x = true := by
    rw [← hs]; exact List.all_eq_true.1 hall1
  have hnum := checked_component num
    (fun x hx => hall2 x (List.mem_append_left _ hx)) hn hsn hnm
  have hden := checked_component den
    (fun x hx => hall2 x (List.mem_append_right _ (List.mem_cons_of_mem _ hx))) hd hsd hdm
  have hpath := ratio_path_eq hs hall1 hn hd
  rw [hnum, hden] at hpath
  refine ⟨hnum, hden, ?_, ?_⟩
  · by_cases h0 : component_value den = 0
    · simp only [h0, Int.cast_zero, if_true] at hpath
      simp [hpath, h0]
    · have h1 : ((component_value den : Int) : Rat) ≠ 0 := by exact_mod_cast h0
      simp only [h1, if_false] at hpath
      simp [hpath, h0]
  · intro h0
    have h1 : ((component_value den : Int) : Rat) ≠ 0 := by exact_mod_cast h0
    simp only [h1, if_false] at hpath
    exact hpath

/-- The literals `5/0` and `-5/3` under `str_to_exact_ratio`. -/
theorem str_to_exact_ratio_witness :
    str_to_exact "5/0".toList = .error .DivisionByZero ∧
    str_to_exact "-5/3".toList = .ok (-5 / 3) := by
  constructor
  · exact (str_to_exact_ratio "5/0".toList ['5'] ['0'] (by decide) (by decide) (by decide)
      (by decide) (by decide) (by decide) (by decide) (by decide)).2.2.1.2 (by decide)
  · have h := (str_to_exact_ratio "-5/3".toList ['-', '5'] ['3'] (by decide) (by decide)
      (by decide) (by decide) (by decide) (by decide) (by decide) (by decide)).2.2.2 (by decide)
    have h5 : component_value ['-', '5'] = -5 := by decide
    have h3 : component_value ['3'] = 3 := by decide
    rw [h5, h3] at h
    simpa using h

/-! ## Rejected literals -/

theorem is_allowed_iff (c : Char) :
    is_allowed c = true ↔ (isdigit c = true ∨ c = '/' ∨ c = '-') := by
  constructor
  · exact is_allowed_cases
  · rintro (h | h | h)
    · exact isdigit_is_allowed h
    · subst h; decide
    · subst h; decide

theorem stoll_error {s : List Char} {e : ParseError} (h : stoll s = .error e) :
    e = .StollInvalidArgument ∨ e = .StollOutOfRange := by
  unfold stoll at h
  simp only at h
  split at h
  · left; cases h; rfl
  · split at h <;> (try split at h) <;>
      first
      | (cases h; right; rfl)
      | cases h

theorem integer_str_error {s : List Char} {e : ParseError}
    (h : integer_str_to_exact s = .error e) : e = .MalformedBigInteger := by
  unfold integer_str_to_exact at h
  simp only at h
  split at h
  · cases h; rfl
  · cases h

/-- The conversion of a component never reports an invalid literal or a division by
zero. -/
theorem checked_error {c : List Char} {e : ParseError}
    (h : checked_int_str_to_exact c = .error e) :
    e = .InvalidNumberSign ∨ e = .StollInvalidArgument ∨ e = .StollOutOfRange ∨
      e = .MalformedBigInteger := by
  unfold checked_int_str_to_exact at h
  split at h
  · rename_i e1 hcs
    cases h
    unfold check_sign at hcs
    split at hcs
    · cases hcs
    · split at hcs
      · cases hcs
      · cases hcs; exact Or.inl rfl
  · split at h
    · split at h
      · cases h
      · split at h
        · rename_i e1 hst
          cases h
          rcases stoll_error hst with h1 | h1
          · exact Or.inr (Or.inl h1)
          · exact Or.inr (Or.inr (Or.inl h1))
        · cases h
    · exact Or.inr (Or.inr (Or.inr (integer_str_error h)))

theorem count_slash_split {a b : List Char} (ha : '/' ∉ a) :
    (a ++ '/' :: b).count '/' = 1 + b.count '/' := by
  rw [List.count_append, List.count_cons_self, List.count_eq_zero_of_not_mem ha]
  omega

/-- C5: with `t` the literal stripped of white space, then of leading `+`, then of
leading `0`, `str_to_exact` fails with `InvalidNumberLiteral` exactly when `t` holds a
character that is not a decimal digit, `/` or `-`, or holds more than one `/`; and an
empty `t` gives zero. -/
theorem str_to_exact_invalid_literal_iff (s : List Char) :
    (str_to_exact s = .error .InvalidNumberLiteral ↔
      ((∃ c ∈ stripped s, ¬ (c.isDigit = true ∨ c = '/' ∨ c = '-')) ∨
        1 < (stripped s).count '/')) ∧
    (stripped s = [] → str_to_exact s = .ok 0) := by
  have hdig : ∀ c : Char, c.isDigit = isdigit c := by
    intro c
    simp [Char.isDigit, isdigit, Char.toNat, UInt32.le_def, BitVec.le_def, UInt32.toNat]
  refine ⟨?_, fun h => str_to_exact_empty h⟩
  by_cases hne : stripped s = []
  · rw [str_to_exact_empty hne, hne]
    simp
  by_cases hall : (stripped s).all is_allowed = true
  · have hgood : ¬ ∃ c ∈ stripped s, ¬ (c.isDigit = true ∨ c = '/' ∨ c = '-') := by
      rintro ⟨c, hc, hbad⟩
      rw [hdig] at hbad
      exact hbad ((is_allowed_iff c).1 (List.all_eq_true.1 hall c hc))
    rcases split_at_first (stripped s) '/' with hns | ⟨a, b, hab, ha⟩
    · -- no `/`: an integer
      rw [str_to_exact_integer hne hall hns, List.count_eq_zero_of_not_mem hns]
      constructor
      · intro h
        rcases checked_error h with h1 | h1 | h1 | h1 <;> cases h1
      · rintro (h | h)
        · exact absurd h hgood
        · omega
    · rw [hab, count_slash_split ha]
      rw [← hab]
      by_cases hb : '/' ∈ b
      · rw [str_to_exact_two_slashes hab hall ha hb]
        have : 0 < b.count '/' := List.count_pos_iff.2 hb
        simp only [true_iff]
        right; omega
      · rw [ratio_path_eq hab hall ha hb, List.count_eq_zero_of_not_mem hb]
        constructor
        · intro h
          split at h
          · rename_i e he
            cases h
            rcases checked_error he with h1 | h1 | h1 | h1 <;> cases h1
          · split at h
            · rename_i e he
              cases h
              rcases checked_error he with h1 | h1 | h1 | h1 <;> cases h1
            · split at h <;> cases h
        · rintro (h | h)
          · exact absurd h hgood
          · omega
  · have hall1 : (stripped s).all is_allowed = false := by simpa using hall
    rw [str_to_exact_not_allowed hne hall1]
    simp only [true_iff]
    left
    rw [List.all_eq_true] at hall
    push_neg at hall
    obtain ⟨c, hc, hbad⟩ := hall
    refine ⟨c, hc, ?_⟩
    rw [hdig]
    exact fun h => hbad ((is_allowed_iff c).2 h)

/-- Three literals under `str_to_exact_invalid_literal_iff`: a foreign character, a
second `/`, and a literal that strips to nothing. -/
theorem str_to_exact_invalid_literal_iff_witness :
    str_to_exact "12a".toList = .error .InvalidNumberLiteral ∧
    str_to_exact "1/2/3".toList = .error .InvalidNumberLiteral ∧
    str_to_exact " +0 0".toList = .ok 0 := by
  refine ⟨?_, ?_, ?_⟩
  · exact (str_to_exact_invalid_literal_iff "12a".toList).1.2
      (Or.inl ⟨'a', by decide, by decide⟩)
  · exact (str_to_exact_invalid_literal_iff "1/2/3".toList).1.2 (Or.inr (by decide))
  · exact (str_to_exact_invalid_literal_iff " +0 0".toList).2 (by decide)

/-! ## Non-triangular faces -/

/-- The boundary walk counts the edges of the cycle and stops at its start. -/
theorem ccb_loop_spec (arr : Arrangement) (start k : Nat) (hk : IsCcbLength arr start k) :
    ∀ fuel i, i < k → k - i ≤ fuel →
      ccb_loop arr start fuel (arr.next^[i] start) i = some (k, start) := by
  intro fuel
  induction fuel with
  | zero => intro i hi hf; omega
  | succ fuel ih =>
    intro i hi hf
    have hstep : arr.next (arr.next^[i] start) = arr.next^[i + 1] start :=
      (Function.iterate_succ_apply' arr.next i start).symm
    unfold ccb_loop
    simp only [hstep]
    by_cases hlast : i + 1 = k
    · subst hlast
      have hback : arr.next^[i + 1] start = start := hk.2.1
      have hb : (arr.next^[i + 1] start != start) = false := by simp [hback]
      simp only [hback, bne_self_eq_false, Bool.false_eq_true, if_false]
    · have hne : arr.next^[i + 1] start ≠ start := hk.2.2 (i + 1) (by omega) (by omega)
      have hb : (arr.next^[i + 1] start != start) = true := by simpa using hne
      simp only [hb, if_true]
      exact ih (i + 1) (by omega) (by omega)

theorem ccb_loop_start (arr : Arrangement) (start k fuel : Nat)
    (hk : IsCcbLength arr start k) (hf : k ≤ fuel) :
    ccb_loop arr start fuel start 0 = some (k, start) :=
  ccb_loop_spec arr start k hk fuel 0 hk.1 (by omega)

/-- A boundary cycle has one length. -/
theorem IsCcbLength_unique {arr : Arrangement} {start k m : Nat}
    (hk : IsCcbLength arr start k) (hm : IsCcbLength arr start m) : k = m := by
  rcases Nat.lt_trichotomy k m with h | h | h
  · exact absurd hk.2.1 (hm.2.2 k h hk.1)
  · exact h
  · exact absurd hm.2.1 (hk.2.2 m h hm.1)

theorem search_faces_none_iff (arr : Arrangement) (fuel : Nat) :
    ∀ faces : List Face,
      (∀ f ∈ faces, f.is_unbounded = false → ∃ k ≤ fuel, IsCcbLength arr f.outer_ccb k) →
      (search_faces arr fuel faces = some none ↔
        ∀ f ∈ faces, f.is_unbounded = false → IsCcbLength arr f.outer_ccb 3) := by
  intro faces
  induction faces with
  | nil => intro _; simp [search_faces]
  | cons f rest ih =>
    intro hwf
    have ih1 := ih (fun g hg => hwf g (List.mem_cons_of_mem _ hg))
    unfold search_faces
    by_cases hu : f.is_unbounded = true
    · simp only [hu, if_true, ih1, List.forall_mem_cons]
      simp
    · have hu1 : f.is_unbounded = false := by simpa using hu
      obtain ⟨k, hkf, hk⟩ := hwf f (List.mem_cons_self _ _) hu1
      simp only [hu1, Bool.false_eq_true, if_false, ccb_loop_start arr _ k fuel hk hkf,
        List.forall_mem_cons]
      by_cases h3 : k = 3
      · subst h3
        simp only [bne_self_eq_false, Bool.false_eq_true, if_false, ih1]
        exact ⟨fun h => ⟨fun _ => hk, h⟩, fun h => h.2⟩
      · have hb : (k != 3) = true := by simpa using h3
        simp only [hb, if_true]
        constructor
        · intro h; cases h
        · intro h
          exact absurd (IsCcbLength_unique hk (h.1 trivial)) h3

theorem search_faces_first (arr : Arrangement) (fuel : Nat) (f : Face) (post : List Face) :
    ∀ pre : List Face,
      (∀ g ∈ pre ++ f :: post, g.is_unbounded = false →
        ∃ k ≤ fuel, IsCcbLength arr g.outer_ccb k) →
      (∀ g ∈ pre, g.is_unbounded = false → IsCcbLength arr g.outer_ccb 3) →
      f.is_unbounded = false → ¬ IsCcbLength arr f.outer_ccb 3 →
      search_faces arr fuel (pre ++ f :: post) = some (some (arr.source f.outer_ccb)) := by
  intro pre
  induction pre with
  | nil =>
    intro hwf _ hu hn
    obtain ⟨k, hkf, hk⟩ := hwf f (by simp) hu
    have h3 : k ≠ 3 := fun h => hn (h ▸ hk)
    have hb : (k != 3) = true := by simpa using h3
    simp only [List.nil_append, search_faces, hu, Bool.false_eq_true, if_false,
      ccb_loop_start arr _ k fuel hk hkf, hb, if_true]
  | cons g pre ih =>
    intro hwf hpre hu hn
    have ih1 := ih (fun x hx => hwf x (List.mem_cons_of_mem _ hx))
      (fun x hx => hpre x (List.mem_cons_of_mem _ hx)) hu hn
    rw [List.cons_append]
    unfold search_faces
    by_cases hg : g.is_unbounded = true
    · simp only [hg, if_true, ih1]
    · have hg1 : g.is_unbounded = false := by simpa using hg
      obtain ⟨k, hkf, hk⟩ := hwf g (by simp) hg1
      have h3 : k = 3 := IsCcbLength_unique hk (hpre g (List.mem_cons_self _ _) hg1)
      subst h3
      simp only [hg1, Bool.false_eq_true, if_false, ccb_loop_start arr _ 3 fuel hk hkf,
        bne_self_eq_false, ih1]

theorem search_faces_returns (arr : Arrangement) (fuel : Nat) :
    ∀ faces : List Face,
      (∀ f ∈ faces, f.is_unbounded = false → ∃ k ≤ fuel, IsCcbLength arr f.outer_ccb k) →
      ∃ r, search_faces arr fuel faces = some r := by
  intro faces
  induction faces with
  | nil => intro _; exact ⟨none, rfl⟩
  | cons f rest ih =>
    intro hwf
    have ih1 := ih (fun g hg => hwf g (List.mem_cons_of_mem _ hg))
    unfold search_faces
    by_cases hu : f.is_unbounded = true
    · simp only [hu, if_true]
      exact ih1
    · have hu1 : f.is_unbounded = false := by simpa using hu
      obtain ⟨k, hkf, hk⟩ := hwf f (List.mem_cons_self _ _) hu1
      simp only [hu1, Bool.false_eq_true, if_false, ccb_loop_start arr _ k fuel hk hkf]
      split
      · exact ⟨_, rfl⟩
      · exact ih1

/-- C6: in an arrangement whose bounded faces each have a closed outer boundary cycle (of
at most `fuel` edges), `search_for_non_triangular_faces` returns; it returns nothing
exactly when every bounded face has exactly 3 edges on its outer boundary cycle, and
otherwise it returns the point of the source vertex of the `outer_ccb` halfedge, a vertex
of the outer boundary, of the first bounded face, in iteration order, whose outer
boundary cycle does not have exactly 3 edges. -/
theorem search_for_non_triangular_faces_spec (arr : Arrangement) (fuel : Nat)
    (hwf : ∀ f ∈ arr.faces, f.is_unbounded = false →
      ∃ k ≤ fuel, IsCcbLength arr f.outer_ccb k) :
    (∃ r, search_for_non_triangular_faces arr fuel = some r) ∧
    (search_for_non_triangular_faces arr fuel = some none ↔
      ∀ f ∈ arr.faces, f.is_unbounded = false → IsCcbLength arr f.outer_ccb 3) ∧
    (∀ pre f post, arr.faces = pre ++ f :: post →
      (∀ g ∈ pre, g.is_unbounded = false → IsCcbLength arr g.outer_ccb 3) →
      f.is_unbounded = false → ¬ IsCcbLength arr f.outer_ccb 3 →
      search_for_non_triangular_faces arr fuel = some (some (arr.source f.outer_ccb))) := by
  refine ⟨?_, ?_, ?_⟩
  · exact search_faces_returns arr fuel arr.faces hwf
  · exact search_faces_none_iff arr fuel arr.faces hwf
  · intro pre f post hfaces hpre hu hn
    unfold search_for_non_triangular_faces
    rw [hfaces]
    exact search_faces_first arr fuel f post pre (hfaces ▸ hwf) hpre hu hn

/-- The square given by its 4 corners and 4 boundary edges: the single bounded face is a
quadrilateral and the search yields the corner `(0,0)`. -/
theorem search_for_non_triangular_faces_spec_witness :
    search_for_non_triangular_faces square_arrangement 8 = some (some ⟨0, 0⟩) :=
  (search_for_non_triangular_faces_spec square_arrangement 8 (by decide)).2.2
    [⟨true, 4⟩] ⟨false, 0⟩ [] rfl (by decide) rfl (by decide)

/-! ## Obtuse triangles -/

/-- The three-step angle loop adds one exactly when one of the three angles is obtuse. -/
theorem angle_loop_spec (p1 p2 p3 : Point) (count : Nat) :
    angle_loop [p1, p2, p3] count 0 3
      = count + (if has_obtuse_angle p1 p2 p3 then 1 else 0) := by
  have e1 : ([p1, p2, p3] : List Point).getD 0 default = p1 := rfl
  have e2 : ([p1, p2, p3] : List Point).getD 1 default = p2 := rfl
  have e3 : ([p1, p2, p3] : List Point).getD 2 default = p3 := rfl
  simp only [angle_loop, Nat.zero_add, Nat.reduceAdd, Nat.reduceMod, e1, e2, e3]
  unfold has_obtuse_angle obtuse_at
  by_cases h1 : scalar_product (p2 - p1) (p3 - p1) < 0
  · simp [h1]
  · by_cases h2 : scalar_product (p3 - p2) (p1 - p2) < 0
    · simp [h1, h2]
    · by_cases h3 : scalar_product (p1 - p3) (p2 - p3) < 0
      · simp [h1, h2, h3]
      · simp [h1, h2, h3]

theorem count_faces_spec (arr : Arrangement) :
    ∀ (faces : List Face) (count : Nat),
      count_faces arr faces count
        = count + (faces.filter (fun f => decide (is_tested_obtuse arr f))).length := by
  intro faces
  induction faces with
  | nil => intro count; simp [count_faces]
  | cons f rest ih =>
    intro count
    unfold count_faces
    by_cases hu : f.is_unbounded = true
    · have hn : ¬ is_tested_obtuse arr f := fun h => by
        rw [h.1] at hu; cases hu
      simp [hu, ih, hn]
    · have hu1 : f.is_unbounded = false := by simpa using hu
      simp only [hu1, Bool.false_eq_true, if_false, ih, angle_loop_spec]
      by_cases ho : has_obtuse_angle (arr.source f.outer_ccb) (arr.target f.outer_ccb)
          (arr.target (arr.next f.outer_ccb))
      · have : is_tested_obtuse arr f := ⟨hu1, ho⟩
        simp [ho, this]
        omega
      · have : ¬ is_tested_obtuse arr f := fun h => ho h.2
        simp [ho, this]

/-- C7 as stated fails on a bounded face that is not a triangle: the parallelogram
`(0,0)`, `(4,0)`, `(5,1)`, `(1,1)` is one quadrilateral face, the arrangement has no
bounded triangular face at all, and yet the count is 1, whichever corner the boundary
walk of the face starts from. -/
theorem count_obtuse_triangles_counts_quadrilateral :
    count_obtuse_triangles parallelogram_arrangement = 1 ∧
    obtuse_triangle_count parallelogram_arrangement = 0 ∧
    (∀ f ∈ parallelogram_arrangement.faces, f.is_unbounded = false →
      IsCcbLength parallelogram_arrangement f.outer_ccb 4) ∧
    count_obtuse_triangles (polygon_arrangement [⟨4, 0⟩, ⟨5, 1⟩, ⟨1, 1⟩, ⟨0, 0⟩]) = 1 ∧
    count_obtuse_triangles (polygon_arrangement [⟨5, 1⟩, ⟨1, 1⟩, ⟨0, 0⟩, ⟨4, 0⟩]) = 1 ∧
    count_obtuse_triangles (polygon_arrangement [⟨1, 1⟩, ⟨0, 0⟩, ⟨4, 0⟩, ⟨5, 1⟩]) = 1 := by
  refine ⟨?_, ?_, ?_, ?_, ?_, ?_⟩
  · decide!
  · decide!
  · decide
  · decide!
  · decide!
  · decide!

/-- C7, amended: `count_obtuse_triangles` counts, once each, the bounded faces for which
the triangle of the first three vertices of the outer boundary walk has an angle whose
dot product is strictly negative; the unbounded face is skipped and a right angle does
not count.  When every bounded face is a triangle, this is the number of bounded
triangular faces that have an obtuse angle. -/
theorem count_obtuse_triangles_spec (arr : Arrangement)
    (hcons : ∀ f ∈ arr.faces, f.is_unbounded = false →
      arr.target f.outer_ccb = arr.source (arr.next f.outer_ccb) ∧
      arr.target (arr.next f.outer_ccb) = arr.source (arr.next (arr.next f.outer_ccb))) :
    count_obtuse_triangles arr
        = (arr.faces.filter (fun f => decide (is_tested_obtuse arr f))).length ∧
    ((∀ f ∈ arr.faces, f.is_unbounded = false → IsCcbLength arr f.outer_ccb 3) →
      count_obtuse_triangles arr = obtuse_triangle_count arr) := by
  have hcount : count_obtuse_triangles arr
      = (arr.faces.filter (fun f => decide (is_tested_obtuse arr f))).length := by
    unfold count_obtuse_triangles
    rw [count_faces_spec]
    simp
  refine ⟨hcount, fun htri => ?_⟩
  rw [hcount]
  unfold obtuse_triangle_count
  congr 1
  apply List.filter_congr
  intro f hf
  congr 1
  apply propext
  unfold is_tested_obtuse is_obtuse_triangle_face
  constructor
  · rintro ⟨hu, ho⟩
    obtain ⟨h1, h2⟩ := hcons f hf hu
    exact ⟨hu, htri f hf hu, by rw [← h1, ← h2]; exact ho⟩
  · rintro ⟨hu, _, ho⟩
    obtain ⟨h1, h2⟩ := hcons f hf hu
    exact ⟨hu, by rw [h1, h2]; exact ho⟩

/-- The right triangle `(0,0)`, `(4,0)`, `(0,3)` counts 0, and the triangle `(0,0)`,
`(4,0)`, `(5,1)` with an obtuse angle counts 1. -/
theorem count_obtuse_triangles_spec_witness :
    count_obtuse_triangles right_triangle_arrangement = 0 ∧
    count_obtuse_triangles obtuse_triangle_arrangement = 1 := by
  constructor
  · rw [(count_obtuse_triangles_spec right_triangle_arrangement (by decide!)).2 (by decide)]
    decide!
  · rw [(count_obtuse_triangles_spec obtuse_triangle_arrangement (by decide!)).2 (by decide)]
    decide!

/-! ## The boundary of the builder -/

/-- With indices inside `points_`, the first loop of `add_boundary` collects the points
that the indices designate. -/
theorem boundary_vertices_of_valid {CDT : Type} (E : TriangulationEngine CDT)
    (st : ConstrainedTriangulation CDT) (boundary : List Int)
    (hidx : ∀ i ∈ boundary, 0 ≤ i ∧ i < (st.points_.length : Int)) :
    boundary_vertices E st boundary = some (indexed_points E st boundary) := by
  induction boundary with
  | nil => rfl
  | cons i rest ih =>
    have hi := hidx i (List.mem_cons_self _ _)
    have ih1 := ih (fun j hj => hidx j (List.mem_cons_of_mem _ hj))
    have hlt : i.toNat < st.points_.length := by omega
    have hget : st.points_.get? i.toNat = some (st.points_.getD i.toNat 0) := by
      rw [List.getD_eq_getElem?_getD, List.get?_eq_getElem?, List.getElem?_eq_getElem hlt]
      rfl
    simp only [boundary_vertices, hi.1, if_true, hget, ih1]
    rfl

/-- What `add_boundary` does once the points of the boundary are collected. -/
theorem add_boundary_of_vertices {CDT : Type} (E : TriangulationEngine CDT)
    (K : PolygonKernel) (st : ConstrainedTriangulation CDT) (boundary : List Int)
    (vertices : List Point) (hv : boundary_vertices E st boundary = some vertices) :
    add_boundary E K st boundary =
      if (E.insert_constraint st.cdt_ vertices true).2 then
        ({ st with cdt_ := (E.insert_constraint st.cdt_ vertices true).1 },
          some .IntersectionOfConstraints)
      else if !K.is_simple vertices then
        ({ st with cdt_ := (E.insert_constraint st.cdt_ vertices true).1,
                   boundary_ := some vertices }, some .InvalidBoundary)
      else if K.orientation vertices = .CLOCKWISE then
        ({ st with cdt_ := (E.insert_constraint st.cdt_ vertices true).1,
                   boundary_ := some vertices }, some .InvalidOrientation)
      else
        ({ st with cdt_ := (E.insert_constraint st.cdt_ vertices true).1,
                   boundary_ := some vertices }, none) := by
  unfold add_boundary
  rw [hv]

/-- C8 as stated fails on the square `(0,0)`, `(4,0)`, `(4,4)`, `(0,4)` given clockwise,
in a builder that also holds the point `(6,2)`: the call fails with
`InvalidOrientation`, yet afterwards the rejected polygon is stored as the boundary and
its four edges are constraints of the triangulation, neither of which was so before the
call; and `get_triangulation_edges`, which returned the seven edges of the triangulation
before the call, afterwards leaves out the two edges that reach `(6,2)`. -/
theorem add_boundary_failure_leaves_boundary :
    (add_boundary cgal_triangulation cgal_polygon outer_point_builder [0, 3, 2, 1]).2
      = some .InvalidOrientation ∧
    outer_point_builder.boundary_ = none ∧
    (add_boundary cgal_triangulation cgal_polygon outer_point_builder [0, 3, 2, 1]).1.boundary_
      = some [⟨0, 0⟩, ⟨0, 4⟩, ⟨4, 4⟩, ⟨4, 0⟩] ∧
    outer_point_builder.cdt_.constraints = [] ∧
    (add_boundary cgal_triangulation cgal_polygon outer_point_builder
        [0, 3, 2, 1]).1.cdt_.constraints
      = [(⟨0, 0⟩, ⟨0, 4⟩), (⟨0, 4⟩, ⟨4, 4⟩), (⟨4, 4⟩, ⟨4, 0⟩), (⟨4, 0⟩, ⟨0, 0⟩)] ∧
    get_triangulation_edges (fixed_view outer_point_mesh) cgal_polygon outer_point_builder
      = .ok [(0, 1), (1, 2), (2, 0), (2, 3), (3, 0), (1, 4), (4, 2)] ∧
    get_triangulation_edges (fixed_view outer_point_mesh) cgal_polygon
        (add_boundary cgal_triangulation cgal_polygon outer_point_builder [0, 3, 2, 1]).1
      = .ok [(0, 1), (1, 2), (2, 0), (2, 3), (3, 0)] := by
  refine ⟨?_, ?_, ?_, ?_, ?_, ?_, ?_⟩ <;> decide!

/-- C8, amended: when `add_boundary` fails with `InvalidBoundary` or
`InvalidOrientation`, the list of points and the map from points to indices are as
before the call, but the rejected polygon is stored as the boundary and the
triangulation is the one in which the edges of the polygon have been inserted as
constraints. -/
theorem add_boundary_failure_state {CDT : Type} (E : TriangulationEngine CDT)
    (K : PolygonKernel) (st : ConstrainedTriangulation CDT) (boundary : List Int)
    (hfail : (add_boundary E K st boundary).2 = some .InvalidBoundary ∨
      (add_boundary E K st boundary).2 = some .InvalidOrientation) :
    ∃ vertices, boundary_vertices E st boundary = some vertices ∧
      (E.insert_constraint st.cdt_ vertices true).2 = false ∧
      (add_boundary E K st boundary).1.points_ = st.points_ ∧
      (add_boundary E K st boundary).1.point_to_index_ = st.point_to_index_ ∧
      (add_boundary E K st boundary).1.boundary_ = some vertices ∧
      (add_boundary E K st boundary).1.cdt_ = (E.insert_constraint st.cdt_ vertices true).1 := by
  cases hv : boundary_vertices E st boundary with
  | none =>
    have : (add_boundary E K st boundary).2 = some .IndexOutOfRange := by
      unfold add_boundary; rw [hv]
    rw [this] at hfail
    rcases hfail with h | h <;> cases h
  | some vertices =>
    refine ⟨vertices, rfl, ?_⟩
    rw [add_boundary_of_vertices E K st boundary vertices hv] at hfail ⊢
    by_cases hthrew : (E.insert_constraint st.cdt_ vertices true).2 = true
    · simp only [hthrew, if_true] at hfail
      rcases hfail with h | h <;> cases h
    · have hthrew1 : (E.insert_constraint st.cdt_ vertices true).2 = false := by
        simpa using hthrew
      simp only [hthrew1, Bool.false_eq_true, if_false]
      refine ⟨trivial, ?_⟩
      split <;> (try split) <;> exact ⟨rfl, rfl, rfl, rfl⟩

/-- The clockwise square under `add_boundary_failure_state`: the call fails, the points
and their indices are as before, the rejected polygon is the stored boundary and the
triangulation holds its four edges as constraints. -/
theorem add_boundary_failure_state_witness :
    (add_boundary cgal_triangulation cgal_polygon square_builder [0, 3, 2, 1]).2
      = some .InvalidOrientation ∧
    (add_boundary cgal_triangulation cgal_polygon square_builder [0, 3, 2, 1]).1.points_
      = square_builder.points_ ∧
    (add_boundary cgal_triangulation cgal_polygon square_builder [0, 3, 2, 1]).1.point_to_index_
      = square_builder.point_to_index_ ∧
    (add_boundary cgal_triangulation cgal_polygon square_builder [0, 3, 2, 1]).1.boundary_
      = some [⟨0, 0⟩, ⟨0, 4⟩, ⟨4, 4⟩, ⟨4, 0⟩] ∧
    (add_boundary cgal_triangulation cgal_polygon square_builder [0, 3, 2, 1]).1.cdt_
      = (cgal_triangulation.insert_constraint square_builder.cdt_
          [⟨0, 0⟩, ⟨0, 4⟩, ⟨4, 4⟩, ⟨4, 0⟩] true).1 := by
  have hfail : (add_boundary cgal_triangulation cgal_polygon square_builder [0, 3, 2, 1]).2
      = some .InvalidOrientation := by decide!
  obtain ⟨vertices, hv, _, hp, hm, hb, hc⟩ :=
    add_boundary_failure_state cgal_triangulation cgal_polygon square_builder [0, 3, 2, 1]
      (Or.inr hfail)
  have hv1 : boundary_vertices cgal_triangulation square_builder [0, 3, 2, 1]
      = some [⟨0, 0⟩, ⟨0, 4⟩, ⟨4, 4⟩, ⟨4, 0⟩] := by decide!
  rw [hv1] at hv
  cases hv
  exact ⟨hfail, hp, hm, hb, hc⟩

/-- C9 as stated fails on the bowtie order `(0,0)`, `(4,0)`, `(0,4)`, `(4,4)` of the
corners of the square: the polygon is not simple, yet the call does not fail with
`InvalidBoundary`.  The edges are inserted as constraints before the polygon is built,
the last edge crosses the second, and the triangulation, which is instantiated with
`No_constraint_intersection_tag`, throws on the crossing, so the call fails inside the
triangulation and the simplicity test is never reached: no boundary is stored, and the
three edges inserted before the crossing remain as constraints. -/
theorem add_boundary_bowtie_fails_in_triangulation :
    cgal_polygon.is_simple (indexed_points cgal_triangulation square_builder [0, 1, 3, 2])
      = false ∧
    (add_boundary cgal_triangulation cgal_polygon square_builder [0, 1, 3, 2]).2
      = some .IntersectionOfConstraints ∧
    (add_boundary cgal_triangulation cgal_polygon square_builder [0, 1, 3, 2]).2
      ≠ some .InvalidBoundary ∧
    (add_boundary cgal_triangulation cgal_polygon square_builder [0, 1, 3, 2]).1.boundary_
      = none ∧
    (add_boundary cgal_triangulation cgal_polygon square_builder
        [0, 1, 3, 2]).1.cdt_.constraints
      = [(⟨0, 0⟩, ⟨4, 0⟩), (⟨4, 0⟩, ⟨0, 4⟩), (⟨0, 4⟩, ⟨4, 4⟩)] := by
  refine ⟨?_, ?_, ?_, ?_, ?_⟩ <;> decide!

/-- A boundary of two points: its orientation is collinear, so it passes the test
`is_clockwise_oriented()` and the call succeeds, although the comment and the message
of that test ask for a counter-clockwise polygon. -/
theorem add_boundary_two_points :
    (add_boundary cgal_triangulation cgal_polygon square_builder [0, 1]).2 = none ∧
    cgal_polygon.orientation (indexed_points cgal_triangulation square_builder [0, 1])
      = .COLLINEAR := by
  constructor <;> decide!

theorem orientation_counterclockwise_of_ne {o : Orientation} (h1 : o ≠ .COLLINEAR)
    (h2 : o ≠ .CLOCKWISE) : o = .COUNTERCLOCKWISE := by
  cases o
  · exact absurd rfl h2
  · exact absurd rfl h1
  · rfl

/-- C9, amended: for a sequence of indices of added points, `add_boundary` fails inside
the triangulation exactly when the insertion of the boundary edges as constraints
throws, as it does on crossing edges.  When the insertion is accepted, the call fails
with `InvalidBoundary` if the polygon of those points is not simple and with
`InvalidOrientation` if it is simple but clockwise; and for a polygon whose orientation
is not collinear these are the only failures, so that the call succeeds exactly when
the polygon is simple and counter-clockwise.  Nothing is said about what the call does
with a simple polygon of collinear orientation. -/
theorem add_boundary_outcome {CDT : Type} (E : TriangulationEngine CDT) (K : PolygonKernel)
    (st : ConstrainedTriangulation CDT) (boundary : List Int)
    (hidx : ∀ i ∈ boundary, 0 ≤ i ∧ i < (st.points_.length : Int)) :
    ((add_boundary E K st boundary).2 = some .IntersectionOfConstraints ↔
      (E.insert_constraint st.cdt_ (indexed_points E st boundary) true).2 = true) ∧
    ((E.insert_constraint st.cdt_ (indexed_points E st boundary) true).2 = false →
      K.is_simple (indexed_points E st boundary) = false →
      (add_boundary E K st boundary).2 = some .InvalidBoundary) ∧
    ((E.insert_constraint st.cdt_ (indexed_points E st boundary) true).2 = false →
      K.is_simple (indexed_points E st boundary) = true →
      K.orientation (indexed_points E st boundary) = .CLOCKWISE →
      (add_boundary E K st boundary).2 = some .InvalidOrientation) ∧
    (K.orientation (indexed_points E st boundary) ≠ .COLLINEAR →
      ((add_boundary E K st boundary).2 = some .InvalidBoundary ↔
        (E.insert_constraint st.cdt_ (indexed_points E st boundary) true).2 = false ∧
        K.is_simple (indexed_points E st boundary) = false) ∧
      ((add_boundary E K st boundary).2 = some .InvalidOrientation ↔
        (E.insert_constraint st.cdt_ (indexed_points E st boundary) true).2 = false ∧
        K.is_simple (indexed_points E st boundary) = true ∧
        K.orientation (indexed_points E st boundary) = .CLOCKWISE) ∧
      ((add_boundary E K st boundary).2 = none ↔
        (E.insert_constraint st.cdt_ (indexed_points E st boundary) true).2 = false ∧
        K.is_simple (indexed_points E st boundary) = true ∧
        K.orientation (indexed_points E st boundary) = .COUNTERCLOCKWISE)) := by
  rw [add_boundary_of_vertices E K st boundary _ (boundary_vertices_of_valid E st boundary hidx)]
  by_cases hthrew : (E.insert_constraint st.cdt_ (indexed_points E st boundary) true).2 = true
  · simp [hthrew]
  · have hthrew1 : (E.insert_constraint st.cdt_ (indexed_points E st boundary) true).2
        = false := by simpa using hthrew
    by_cases hs : K.is_simple (indexed_points E st boundary) = true
    · by_cases ho : K.orientation (indexed_points E st boundary) = .CLOCKWISE
      · simp [hthrew1, hs, ho]
      · refine ⟨by simp [hthrew1, hs, ho], by simp [hs], by simp [ho], fun hc => ?_⟩
        have hccw := orientation_counterclockwise_of_ne hc ho
        simp [hthrew1, hs, hccw]
    · have hs1 : K.is_simple (indexed_points E st boundary) = false := by simpa using hs
      simp [hthrew1, hs1]

/-- The square of corners `(0,0)`, `(4,0)`, `(4,4)`, `(0,4)` under `add_boundary_outcome`:
given clockwise it fails with `InvalidOrientation`, given counter-clockwise it is
accepted, and the order that visits `(4,0)` twice fails with `InvalidBoundary`. -/
theorem add_boundary_outcome_witness :
    (add_boundary cgal_triangulation cgal_polygon square_builder [0, 3, 2, 1]).2
      = some .InvalidOrientation ∧
    (add_boundary cgal_triangulation cgal_polygon square_builder [0, 1, 2, 3]).2 = none ∧
    (add_boundary cgal_triangulation cgal_polygon square_builder [0, 1, 2, 1]).2
      = some .InvalidBoundary := by
  refine ⟨?_, ?_, ?_⟩
  · exact (add_boundary_outcome cgal_triangulation cgal_polygon square_builder [0, 3, 2, 1]
      (by decide)).2.2.1 (by decide!) (by decide!) (by decide!)
  · exact ((add_boundary_outcome cgal_triangulation cgal_polygon square_builder [0, 1, 2, 3]
      (by decide)).2.2.2 (by decide!)).2.2.2 (by decide!)
  · exact (add_boundary_outcome cgal_triangulation cgal_polygon square_builder [0, 1, 2, 1]
      (by decide)).2.1 (by decide!) (by decide!)

/-! ## The edges of the triangulation -/

/-- The test of the loop lets an edge through exactly when its midpoint is inside or on
the boundary. -/
theorem outside_boundary_eq_false_iff (K : PolygonKernel) (boundary : Option (List Point))
    (q : Point) : outside_boundary K boundary q = false ↔ inside_or_on K boundary q := by
  cases boundary with
  | none => simp [outside_boundary, inside_or_on]
  | some b =>
    simp only [outside_boundary, inside_or_on]
    cases K.bounded_side b q <;> simp

theorem edges_loop_spec {CDT : Type} (V : TriangulationView CDT) (K : PolygonKernel)
    (st : ConstrainedTriangulation CDT) :
    ∀ (edges : List (Nat × Nat)) (acc : List (Int × Int)),
      (∀ e ∈ edges, inside_or_on K st.boundary_ (edge_midpoint V st.cdt_ e) →
        (st.point_to_index_.lookup (edge_endpoints V st.cdt_ e).1).isSome = true ∧
        (st.point_to_index_.lookup (edge_endpoints V st.cdt_ e).2).isSome = true) →
      edges_loop V K st edges acc
        = .ok (acc ++ (edges.filter
            (fun e => decide (inside_or_on K st.boundary_ (edge_midpoint V st.cdt_ e)))).map
            (fun e => (index_of st (edge_endpoints V st.cdt_ e).1,
              index_of st (edge_endpoints V st.cdt_ e).2))) := by
  intro edges
  induction edges with
  | nil => intro acc _; simp [edges_loop]
  | cons e rest ih =>
    intro acc hreg
    have ih1 := fun acc1 => ih acc1 (fun x hx => hreg x (List.mem_cons_of_mem _ hx))
    have hmid : midpoint (V.point st.cdt_ (V.vertex st.cdt_ e.1 ((e.2 + 1) % 3)))
        (V.point st.cdt_ (V.vertex st.cdt_ e.1 ((e.2 + 2) % 3))) = edge_midpoint V st.cdt_ e := rfl
    unfold edges_loop
    simp only [hmid]
    by_cases hin : inside_or_on K st.boundary_ (edge_midpoint V st.cdt_ e)
    · have hout := (outside_boundary_eq_false_iff K st.boundary_ _).2 hin
      obtain ⟨h1, h2⟩ := hreg e (List.mem_cons_self _ _) hin
      obtain ⟨i, hi⟩ := Option.isSome_iff_exists.1 h1
      obtain ⟨j, hj⟩ := Option.isSome_iff_exists.1 h2
      have hi1 : st.point_to_index_.lookup (V.vertex st.cdt_ e.1 ((e.2 + 1) % 3)) = some i := hi
      have hj1 : st.point_to_index_.lookup (V.vertex st.cdt_ e.1 ((e.2 + 2) % 3)) = some j := hj
      simp only [hout, Bool.false_eq_true, if_false, hi1, hj1, ih1, List.filter_cons, hin,
        decide_True, if_true, List.map_cons, index_of, hi, hj, Option.getD_some,
        List.append_assoc, List.singleton_append]
    · have hout : outside_boundary K st.boundary_ (edge_midpoint V st.cdt_ e) = true := by
        cases h : outside_boundary K st.boundary_ (edge_midpoint V st.cdt_ e) with
        | true => rfl
        | false => exact absurd ((outside_boundary_eq_false_iff K st.boundary_ _).1 h) hin
      simp only [hout, if_true, ih1, List.filter_cons, hin, decide_False, Bool.false_eq_true,
        if_false]

/-- C10: when every endpoint of a kept edge has an index in `point_to_index_`,
`get_triangulation_edges` returns, in iteration order, the pair of point indices of the
endpoints of exactly those finite edges whose midpoint is inside or on the boundary
polygon, wherever the endpoints lie; with no boundary set, these are all the finite
edges. -/
theorem get_triangulation_edges_spec {CDT : Type} (V : TriangulationView CDT)
    (K : PolygonKernel) (st : ConstrainedTriangulation CDT)
    (hreg : ∀ e ∈ kept_edges V K st,
      (st.point_to_index_.lookup (edge_endpoints V st.cdt_ e).1).isSome = true ∧
      (st.point_to_index_.lookup (edge_endpoints V st.cdt_ e).2).isSome = true) :
    get_triangulation_edges V K st
      = .ok ((kept_edges V K st).map
          (fun e => (index_of st (edge_endpoints V st.cdt_ e).1,
            index_of st (edge_endpoints V st.cdt_ e).2))) ∧
    (∀ e, e ∈ kept_edges V K st ↔
      e ∈ V.finite_edges st.cdt_ ∧ inside_or_on K st.boundary_ (edge_midpoint V st.cdt_ e)) ∧
    (st.boundary_ = none → kept_edges V K st = V.finite_edges st.cdt_) := by
  refine ⟨?_, ?_, ?_⟩
  · unfold get_triangulation_edges
    rw [edges_loop_spec V K st (V.finite_edges st.cdt_) []]
    · simp [kept_edges]
    · intro e he hin
      exact hreg e (by
        unfold kept_edges
        exact List.mem_filter.2 ⟨he, by simpa using hin⟩)
  · intro e
    unfold kept_edges
    simp [List.mem_filter]
  · intro hnone
    unfold kept_edges
    rw [hnone, List.filter_eq_self]
    intro e _
    simp [inside_or_on]

/-- The notched square: the edge from `(4,4)` to `(0,4)`, points 2 and 4, has both
endpoints on the boundary and its midpoint `(2,4)` outside; it is the one finite edge
that is not returned. -/
theorem get_triangulation_edges_spec_witness :
    get_triangulation_edges mesh_view cgal_polygon notch_builder
      = .ok [(0, 1), (1, 3), (3, 0), (1, 2), (2, 3), (4, 3), (4, 0)] := by
  have h := (get_triangulation_edges_spec mesh_view cgal_polygon notch_builder
    (by decide!)).1
  rw [h]
  decide!

/-! ## The failures of the parser -/

theorem check_sign_cases (c : List Char) :
    check_sign c = .ok () ∨ check_sign c = .error .InvalidNumberSign := by
  unfold check_sign
  split
  · exact Or.inl rfl
  · split
    · exact Or.inl rfl
    · exact Or.inr rfl

theorem checked_of_sign_error {c : List Char} {e : ParseError}
    (h : check_sign c = .error e) : checked_int_str_to_exact c = .error e := by
  unfold checked_int_str_to_exact
  rw [h]

/-- A component that passed the character check and holds no `/` is converted to the
integer it denotes, or fails the sign check, or is the lone `-`, on which `std::stoll`
throws `std::invalid_argument`. -/
theorem checked_outcome (c : List Char) (hall : ∀ x ∈ c, is_allowed x = true)
    (hns : '/' ∉ c) :
    checked_int_str_to_exact c = .ok ((component_value c : Int) : Rat) ∨
    checked_int_str_to_exact c = .error .InvalidNumberSign ∨
    (c = ['-'] ∧ checked_int_str_to_exact c = .error .StollInvalidArgument) := by
  rcases check_sign_cases c with hs | hs
  · by_cases hm : c = ['-']
    · right; right
      exact ⟨hm, by rw [hm]; exact checked_lone_minus⟩
    · left
      exact checked_component c hall hns hs hm
  · right; left
    exact checked_of_sign_error hs

/-- A checked component of at most 16 characters is a sign and at most 16 digits. -/
theorem component_shape (c : List Char) (hall : ∀ x ∈ c, is_allowed x = true)
    (hns : '/' ∉ c) (hs : check_sign c = .ok ()) (hne : c ≠ []) (hm : c ≠ ['-']) :
    ∃ (neg : Bool) (ds : List Char), ds ≠ [] ∧ (∀ x ∈ ds, isdigit x = true) ∧
      c = (if neg then ['-'] else []) ++ ds ∧
      component_value c = (if neg then -(decimal_value ds : Int) else (decimal_value ds : Int)) := by
  cases c with
  | nil => exact absurd rfl hne
  | cons x rest =>
    have hrest : ∀ y ∈ rest, isdigit y = true := by
      unfold check_sign at hs
      simp only [List.isEmpty_cons, Bool.false_eq_true, if_false, List.drop_succ_cons,
        List.drop_zero] at hs
      split at hs
      · rename_i h; exact List.all_eq_true.1 h
      · cases hs
    rcases is_allowed_cases (hall x (List.mem_cons_self _ _)) with hx | hx | hx
    · have hd : ∀ y ∈ x :: rest, isdigit y = true := by
        intro y hy
        rcases List.mem_cons.1 hy with h | h
        · rw [h]; exact hx
        · exact hrest y h
      exact ⟨false, x :: rest, by simp, hd, by simp, by
        simp [component_value_of_digits hd]⟩
    · exact absurd (hx ▸ List.mem_cons_self _ _) hns
    · subst hx
      have hr : rest ≠ [] := fun h => hm (by rw [h])
      exact ⟨true, rest, hr, hrest, by simp, by simp [component_value]⟩

/-- On the fast path the 64-bit conversion of a checked component other than the lone
`-` succeeds with the integer the component denotes, which is far inside the signed
64-bit range. -/
theorem stoll_checked_component (c : List Char) (hall : ∀ x ∈ c, is_allowed x = true)
    (hns : '/' ∉ c) (hs : check_sign c = .ok ()) (hne : c ≠ []) (hm : c ≠ ['-'])
    (hlen : c.length ≤ 16) :
    stoll c = .ok (component_value c) ∧
    -(10 ^ 16 : Int) < component_value c ∧ component_value c < 10 ^ 16 ∧
    INT64_MIN ≤ component_value c ∧ component_value c ≤ INT64_MAX := by
  obtain ⟨neg, ds, hds, hd, hc, hv⟩ := component_shape c hall hns hs hne hm
  have hl : ds.length ≤ 16 := by
    rw [hc, List.length_append] at hlen; omega
  have hlt : decimal_value ds < 10 ^ 16 :=
    lt_of_lt_of_le (decimal_value_lt ds hd) (Nat.pow_le_pow_right (by norm_num) hl)
  have hst := stoll_signed_digits neg ds hds hd (by omega)
  rw [← hc, ← hv] at hst
  refine ⟨hst, ?_⟩
  rw [hv]
  simp only [INT64_MIN, INT64_MAX]
  cases neg <;> simp <;> omega

/-- Every outcome of `str_to_exact`: a value, one of the three parse errors, or the
`std::invalid_argument` of `std::stoll`, the last only when a component of the stripped
literal is the lone `-`. -/
theorem str_to_exact_outcomes (s : List Char) :
    (∃ v, str_to_exact s = .ok v) ∨
    str_to_exact s = .error .InvalidNumberLiteral ∨
    str_to_exact s = .error .InvalidNumberSign ∨
    str_to_exact s = .error .DivisionByZero ∨
    (str_to_exact s = .error .StollInvalidArgument ∧
      (stripped s = ['-'] ∨
        ∃ a b, stripped s = a ++ '/' :: b ∧ (a = ['-'] ∨ b = ['-']))) := by
  by_cases hne : stripped s = []
  · exact Or.inl ⟨0, str_to_exact_empty hne⟩
  by_cases hall : (stripped s).all is_allowed = true
  · have hall1 : ∀ x ∈ stripped s, is_allowed x = true := List.all_eq_true.1 hall
    rcases split_at_first (stripped s) '/' with hns | ⟨a, b, hab, ha⟩
    · rw [str_to_exact_integer hne hall hns]
      rcases checked_outcome (stripped s) hall1 hns with h | h | ⟨h1, h2⟩
      · exact Or.inl ⟨_, h⟩
      · exact Or.inr (Or.inr (Or.inl h))
      · exact Or.inr (Or.inr (Or.inr (Or.inr ⟨h2, Or.inl h1⟩)))
    · by_cases hb : '/' ∈ b
      · exact Or.inr (Or.inl (str_to_exact_two_slashes hab hall ha hb))
      · have halla : ∀ x ∈ a, is_allowed x = true := fun x hx =>
          hall1 x (by rw [hab]; exact List.mem_append_left _ hx)
        have hallb : ∀ x ∈ b, is_allowed x = true := fun x hx =>
          hall1 x (by rw [hab]; exact List.mem_append_right _ (List.mem_cons_of_mem _ hx))
        have hp := ratio_path_eq hab hall ha hb
        rcases checked_outcome a halla ha with h | h | ⟨h1, h2⟩
        · rw [h] at hp
          rcases checked_outcome b hallb hb with k | k | ⟨k1, k2⟩
          · rw [k] at hp
            by_cases h0 : ((component_value b : Int) : Rat) = 0
            · simp only [h0, if_true] at hp
              exact Or.inr (Or.inr (Or.inr (Or.inl hp)))
            · simp only [h0, if_false] at hp
              exact Or.inl ⟨_, hp⟩
          · rw [k] at hp
            exact Or.inr (Or.inr (Or.inl hp))
          · rw [k2] at hp
            exact Or.inr (Or.inr (Or.inr (Or.inr ⟨hp, Or.inr ⟨a, b, hab, Or.inr k1⟩⟩)))
        · rw [h] at hp
          exact Or.inr (Or.inr (Or.inl hp))
        · rw [h2] at hp
          exact Or.inr (Or.inr (Or.inr (Or.inr ⟨hp, Or.inr ⟨a, b, hab, Or.inl h1⟩⟩)))
  · have hall1 : (stripped s).all is_allowed = false := by simpa using hall
    exact Or.inr (Or.inl (str_to_exact_not_allowed hne hall1))

/-- C11 fails on the code at the literal `-`: it passes the character check and the sign
check, which only looks at the characters after the first, and on the fast path
`std::stoll` then throws `std::invalid_argument`, which is none of the three parse
errors.  The same happens to a lone `-` as numerator or denominator.  The empty
component, on which `std::stoll` would fail in the same way, is guarded and gives 0. -/
theorem str_to_exact_lone_minus_fails :
    check_allowed ['-'] = .ok () ∧ check_sign ['-'] = .ok () ∧
    stoll ['-'] = .error .StollInvalidArgument ∧
    str_to_exact ['-'] = .error .StollInvalidArgument ∧
    str_to_exact ['5', '/', '-'] = .error .StollInvalidArgument ∧
    str_to_exact ['-', '/', '3'] = .error .StollInvalidArgument ∧
    stoll [] = .error .StollInvalidArgument ∧
    checked_int_str_to_exact [] = .ok 0 := by
  refine ⟨?_, ?_, ?_, ?_, ?_, ?_, ?_, ?_⟩
  · decide
  · decide
  · decide
  · decide
  · decide
  · decide
  · decide
  · exact checked_nil

end Bindings
